import Mathlib

/-!
Verification of the population-lifecycle core of the simple-creature
evolution simulator (React/TypeScript repository jothflee/simple-creature).

The development shallowly embeds the source files
`src/Creature.ts`, `src/SimulationController.ts` and `src/World.ts`
into Lean:

* JS numbers are modelled as rationals (`ℚ`); creature ids, which are
  only ever compared for identity, are modelled as `ℕ`.
* `Math.random()` draws are modelled by an explicit stream
  `rand : ℕ → ℚ` together with a cursor, so that theorems can quantify
  over all sequences of draws in `[0,1)`.
* `Math.sqrt`, `Math.cos`, `Math.sin` and `Math.PI` only ever flow into
  opaque numeric fields (rest lengths, spawn coordinates); they are
  modelled as oracle parameters, so every statement holds for the real
  functions in particular.
* JS `Map` objects are modelled as association lists with
  `Map.set`/`Map.get` semantics (update-in-place for an existing key,
  append for a fresh key), JS `Set` objects as duplicate-free lists.
* `Array.prototype.sort` is stable (ES2019); it is modelled by a stable
  insertion sort with the same comparator-induced order.
* Object identity of creatures inside `SimulationController.creatures`
  (`top10.includes(c)`, `c !== oldest`) is modelled by tagging the list
  with positions (`List.enum`), which are unique per live array slot.

The file is organised as all definitions first, then all theorems.
-/

namespace SimpleCreature

/-! # Definitions -/

/-! ## Association-list model of a JS `Map` -/

/-- `Map.get`: the value stored at `k`, if any. -/
def lookupA {β : Type} (m : List (ℕ × β)) (k : ℕ) : Option β :=
  (m.find? (fun e => e.1 == k)).map (·.2)

/-- `Map.set`: replace the binding in place if the key exists, else
append (JS `Map` keys are unique, so at most one entry is replaced). -/
def setA {β : Type} : List (ℕ × β) → ℕ → β → List (ℕ × β)
  | [], k, v => [(k, v)]
  | e :: m, k, v => if e.1 == k then (k, v) :: m else e :: setA m k v

/-! ## Stable sort model of `Array.prototype.sort((a, b) => key b - key a)` -/

/-- Insert into a descending-sorted list, after all strictly larger keys and
before all equal keys coming from later positions (stability). -/
def insDesc {α : Type} (key : α → ℚ) (x : α) : List α → List α
  | [] => [x]
  | y :: ys => if key x < key y then y :: insDesc key x ys else x :: y :: ys

/-- Stable descending sort by a rational key; agrees with the JS stable sort
under the comparator `(a, b) => key b - key a`. -/
def sortDescBy {α : Type} (key : α → ℚ) : List α → List α
  | [] => []
  | x :: xs => insDesc key x (sortDescBy key xs)

/-! ## `src/Creature.ts` -/

/-- `ActivationType` from `src/types.ts`. -/
inductive ActivationType where
  | periodic
  | onGroundContact
deriving DecidableEq

/-- `MuscleConfig` from `src/types.ts` (`period` and `extensionFactor` are
optional there). -/
structure MuscleConfig where
  restLength : ℚ
  stiffness : ℚ
  activationType : ActivationType
  period : Option ℚ
  extensionFactor : Option ℚ
deriving DecidableEq

/-- `Muscle` from `src/Creature.ts`.  The two endpoint `PhysicsBody`
references of its constraint are modelled as indices into the owning
creature's body list, and `length` is the commanded constraint length. -/
structure Muscle where
  bodyA : ℕ
  bodyB : ℕ
  config : MuscleConfig
  timer : ℚ
  active : Bool
  length : ℚ
deriving DecidableEq

/-- The `Muscle` constructor: timer 0, inactive, constraint length =
configured rest length. -/
def Muscle.create (a b : ℕ) (cfg : MuscleConfig) : Muscle :=
  { bodyA := a, bodyB := b, config := cfg, timer := 0, active := false,
    length := cfg.restLength }

/-- `Muscle.update(delta, groundY)`.  `yA`, `yB` are the current vertical
positions of the two endpoint bodies (read from the physics engine by the
source). -/
def Muscle.update (m : Muscle) (delta groundY yA yB : ℚ) : Muscle :=
  let m1 :=
    match m.config.activationType with
    | .periodic =>
      if m.config.period.getD 1000 ≤ m.timer + delta then
        { m with active := !m.active, timer := 0 }
      else
        { m with timer := m.timer + delta }
    | .onGroundContact =>
      if groundY ≤ yA ∨ groundY ≤ yB then { m with active := !m.active } else m
  { m1 with
    length :=
      if m1.active then m1.config.restLength * (m1.config.extensionFactor.getD (3/2))
      else m1.config.restLength }

/-- The mutable state of one `Matter.Body` that the controller reads or
writes: position, velocity, angular velocity, static flag. -/
structure BodyState where
  x : ℚ
  y : ℚ
  vx : ℚ
  vy : ℚ
  angularVelocity : ℚ
  isStatic : Bool
deriving DecidableEq

/-- `Creature` from `src/Creature.ts`. -/
structure Creature where
  id : ℕ
  bornAt : ℚ
  maxX : ℚ
  bodies : List BodyState
  muscles : List Muscle
deriving DecidableEq

/-- Vertical position of body `i` of a body list (bodies always exist for
indices stored in muscles; the default is never reached on source-shaped
data). -/
def yAt (bs : List BodyState) (i : ℕ) : ℚ :=
  ((bs.get? i).map (·.y)).getD 0

/-- `Creature.update(delta, groundY)`: update every muscle, then
`maxX = Math.max(maxX, ...bodies.map(b => b.body.position.x))`. -/
def Creature.update (c : Creature) (delta groundY : ℚ) : Creature :=
  { c with
    muscles := c.muscles.map
      (fun m => m.update delta groundY (yAt c.bodies m.bodyA) (yAt c.bodies m.bodyB)),
    maxX := (c.bodies.map (·.x)).foldl max c.maxX }

/-! ## `src/SimulationController.ts` — the population controller -/

/-- The per-body effect of `freezeCreature`: `isStatic = true`,
`velocity.x = velocity.y = 0`, `Body.setAngularVelocity(b, 0)`. -/
def freezeBody (b : BodyState) : BodyState :=
  { b with isStatic := true, vx := 0, vy := 0, angularVelocity := 0 }

/-- `SimulationController.freezeCreature`: add the id to the
`deadCreatures` set, then mark every body static and zero its linear and
angular velocity. -/
def freezeCreature (dead : List ℕ) (c : Creature) : List ℕ × Creature :=
  (dead.insert c.id, { c with bodies := c.bodies.map freezeBody })

/-- `this.lifetime = 15_000`. -/
def lifetime : ℚ := 15000

/-- `this.generationSize = 50`. -/
def generationSize : ℕ := 50

/-- The mutable fields of `SimulationController`.  The world bookkeeping
(`MainWorld`) is modelled separately below; `trickleAddCreature`'s call to
`mainWorld.removeCreature` acts only on that separate state. -/
structure Controller where
  creatures : List Creature
  deadCreatures : List ℕ
  evolutionCount : ℕ
  totalCreatures : ℕ
  top3HighScores : List (ℕ × ℚ)
  allCreatures : List (ℕ × Creature)
deriving DecidableEq

/-- The controller's initial field values. -/
def Controller.init : Controller :=
  { creatures := [], deadCreatures := [], evolutionCount := 0,
    totalCreatures := 0, top3HighScores := [], allCreatures := [] }

/-- `[...this.creatures].sort((a, b) => b.maxX - a.maxX).slice(0, 10)`,
with creatures tagged by their array position to model object identity. -/
def trickleTop10 (cs : List Creature) : List (ℕ × Creature) :=
  (sortDescBy (fun p => p.2.maxX) cs.enum).take 10

/-- `this.creatures.filter(c => !top10.includes(c))`. -/
def trickleNonTop10 (cs : List Creature) : List (ℕ × Creature) :=
  cs.enum.filter (fun p => (trickleTop10 cs).all (fun q => q.1 != p.1))

/-- `nonTop10.reduce((a, b) => (a.bornAt < b.bornAt ? a : b))` on a
possibly-empty list (`undefined` on `[]`, guarded by the caller). -/
def oldestOf : List (ℕ × Creature) → Option (ℕ × Creature)
  | [] => none
  | h :: t => some (t.foldl (fun a b => if a.2.bornAt < b.2.bornAt then a else b) h)

/-- The creature `trickleAddCreature` culls, if any: when the live count
has reached `generationSize` and some live creature is outside the top-10
snapshot, the oldest such creature. -/
def cullTarget (cs : List Creature) : Option (ℕ × Creature) :=
  if generationSize ≤ cs.length then oldestOf (trickleNonTop10 cs) else none

/-- `SimulationController.trickleAddCreature`.  `fresh` is the creature
returned by `createRandomCreature` and `now` is `Date.now()`. -/
def trickleAddCreature (s : Controller) (fresh : Creature) (now : ℚ) : Controller :=
  let rest : List Creature × List ℕ :=
    match cullTarget s.creatures with
    | some old =>
      ((s.creatures.enum.filter (fun p => p.1 != old.1)).map (·.2),
       s.deadCreatures.erase old.2.id)
    | none => (s.creatures, s.deadCreatures)
  let creatures1 := rest.1 ++ [{ fresh with bornAt := now }]
  let total1 := s.totalCreatures + 1
  if total1 % 50 = 0 then
    { s with
      creatures := creatures1
      deadCreatures := rest.2
      totalCreatures := 0
      evolutionCount := s.evolutionCount + 1 }
  else
    { s with
      creatures := creatures1
      deadCreatures := rest.2
      totalCreatures := total1 }

/-- `SimulationController.updateTop3HighScores`: rebuild a map id ↦ maxX
from `allCreatures`, then keep the top 3 by descending distance. -/
def updateTop3HighScores (s : Controller) : Controller :=
  let byId := s.allCreatures.foldl (fun m e => setA m e.2.id e.2.maxX) []
  { s with top3HighScores := (sortDescBy (fun e => e.2) byId).take 3 }

/-- One iteration of the `startMainLoop` callback: freeze creatures past
their lifetime, update the rest with the fixed nominal delta 16, then
refresh the persistent leaderboard. -/
def mainLoopTick (s : Controller) (now groundY : ℚ) : Controller :=
  let folded := s.creatures.foldl
    (fun acc c =>
      if lifetime < now - c.bornAt then
        let fz := freezeCreature acc.2 c
        (acc.1 ++ [fz.2], fz.1)
      else
        (acc.1 ++ [c.update 16 groundY], acc.2))
    ([], s.deadCreatures)
  updateTop3HighScores { s with creatures := folded.1, deadCreatures := folded.2 }

/-- `getTop3HighScores()`: ranks 1..3 attached to the stored entries. -/
def Controller.getTop3HighScores (s : Controller) : List (ℕ × ℚ × ℕ) :=
  s.top3HighScores.enum.map (fun p => (p.2.1, p.2.2, p.1 + 1))

/-- The states a `SimulationController` can reach from construction via its
two callbacks (the 250 ms trickle timer and the animation-frame loop). -/
inductive Reachable : Controller → Prop
  | init : Reachable Controller.init
  | trickle (s : Controller) (fresh : Creature) (now : ℚ) :
      Reachable s → Reachable (trickleAddCreature s fresh now)
  | tick (s : Controller) (now groundY : ℚ) :
      Reachable s → Reachable (mainLoopTick s now groundY)

/-- The states reachable from construction using only trickle steps (the
sequences claim C4 quantifies over; the tick loop never changes the live
count). -/
inductive TrickleReach : Controller → Prop
  | init : TrickleReach Controller.init
  | step (s : Controller) (fresh : Creature) (now : ℚ) :
      TrickleReach s → TrickleReach (trickleAddCreature s fresh now)

/-! ## `CreatureGenerator` from `src/SimulationController.ts` -/

/-- The `Math.random()` stream: `rand` gives the successive draws and `k`
is the cursor of the next draw. -/
structure Gen where
  rand : ℕ → ℚ
  k : ℕ

/-- `Math.floor(r * m)` used to index an array of length `m`; the trailing
`% m` keeps the definition total and is the identity for draws in
`[0, 1)`. -/
def drawIdx (r : ℚ) (m : ℕ) : ℕ := (⌊r * (m : ℚ)⌋).toNat % m

/-- `CreatureGenerator.getDistance`: Euclidean distance between the two
bodies' current positions (`sqrtO` models `Math.sqrt`). -/
def getDistance (sqrtO : ℚ → ℚ) (a b : ℚ × ℚ) : ℚ :=
  sqrtO ((a.1 - b.1) * (a.1 - b.1) + (a.2 - b.2) * (a.2 - b.2))

/-- One muscle appended by `ensureMinimumConnections`, together with the
two `connectionMap` degrees the repair read when it appended it. -/
structure RepairLog where
  mus : Muscle
  degBody : ℕ
  degTarget : ℕ

/-- State threaded through `ensureMinimumConnections`: the incremental
`connectionMap` (as a degree function over body indices), the muscle
array, the log of appended muscles, and the random stream. -/
structure RepairState where
  deg : ℕ → ℕ
  muscles : List Muscle
  log : List RepairLog
  g : Gen

/-- The muscle the repair constructs for `(body, target)`: rest length =
current distance, stiffness `0.3 + r·0.3`, 50/50 activation type, period
`700 + r·1200`, extensionFactor `1 + r·0.4`; consumes four draws. -/
def repairMuscle (sqrtO : ℚ → ℚ) (positions : List (ℚ × ℚ)) (b t : ℕ)
    (g : Gen) : Muscle × Gen :=
  (Muscle.create b t
    { restLength :=
        getDistance sqrtO (positions.getD b (0, 0)) (positions.getD t (0, 0))
      stiffness := 3/10 + g.rand g.k * (3/10)
      activationType :=
        if g.rand (g.k + 1) < 1/2 then .periodic else .onGroundContact
      period := some (700 + g.rand (g.k + 2) * 1200)
      extensionFactor := some (1 + g.rand (g.k + 3) * (2/5)) },
   ⟨g.rand, g.k + 4⟩)

/-- The `while ((connectionMap.get(body) || 0) < 2)` loop of
`ensureMinimumConnections` for one body `b`: pick a uniformly random other
body of degree < 2, append a muscle to it and bump both degrees, until `b`
reaches degree 2 or no candidate remains. -/
def repairBody (sqrtO : ℚ → ℚ) (positions : List (ℚ × ℚ)) (n b : ℕ)
    (st : RepairState) : RepairState :=
  if hb : st.deg b < 2 then
    let candidates :=
      (List.range n).filter (fun t => t != b && decide (st.deg t < 2))
    if hc : candidates.length = 0 then st
    else
      let t := candidates.get ⟨drawIdx (st.g.rand st.g.k) candidates.length,
        Nat.mod_lt _ (Nat.pos_of_ne_zero hc)⟩
      let dm := repairMuscle sqrtO positions b t ⟨st.g.rand, st.g.k + 1⟩
      repairBody sqrtO positions n b
        { deg := fun x =>
            st.deg x + ((if x = b then 1 else 0) + (if x = t then 1 else 0))
          muscles := st.muscles ++ [dm.1]
          log := st.log ++ [⟨dm.1, st.deg b, st.deg t⟩]
          g := dm.2 }
  else st
termination_by 2 - st.deg b
decreasing_by
  simp only [dite_true]
  split <;> omega

/-- The initial `connectionMap` values: each body's incidence count over
the given muscle array (`bodies.find` succeeds exactly for endpoint
indices of bodies of this creature, so for body `b` this is the number of
muscle endpoints equal to `b`). -/
def degM (ms : List Muscle) (b : ℕ) : ℕ :=
  ms.countP (fun m => m.bodyA == b) + ms.countP (fun m => m.bodyB == b)

/-- `CreatureGenerator.ensureMinimumConnections`: initialise the
connection map from the muscle array, then run the repair loop over every
body in order. -/
def ensureMinimumConnections (sqrtO : ℚ → ℚ) (positions : List (ℚ × ℚ))
    (muscles : List Muscle) (g : Gen) : RepairState :=
  (List.range positions.length).foldl
    (fun st b => repairBody sqrtO positions positions.length b st)
    { deg := degM muscles, muscles := muscles, log := [], g := g }

/-- The bodies of `createRandomCreature`: `count` points evenly spaced on
a circle of the given radius centred at `(-100, groundY - 100)`, each
coordinate jittered by `(r - 0.5)·20` (`cosO`, `sinO`, `piO` model
`Math.cos`, `Math.sin`, `Math.PI`). -/
def genBodies (cosO sinO : ℚ → ℚ) (piO cX cY radius : ℚ) (count : ℕ) :
    ℕ → ℕ → Gen → List (ℚ × ℚ) × Gen
  | _, 0, g => ([], g)
  | i, m + 1, g =>
    let angle := ((i : ℚ) / (count : ℚ)) * piO * 2
    let x := cX + cosO angle * radius + (g.rand g.k - 1/2) * 20
    let y := cY + sinO angle * radius + (g.rand (g.k + 1) - 1/2) * 20
    let rest := genBodies cosO sinO piO cX cY radius count (i + 1) m ⟨g.rand, g.k + 2⟩
    ((x, y) :: rest.1, rest.2)

/-- The ring muscle for slot `i`, built from the four draws starting at
cursor `k`: rest length = current distance to the ring successor,
stiffness `0.3 + r·0.7`, 50/50 activation, period `250 + r·1200`,
extensionFactor `1 + r·0.7`. -/
def ringMuscle (sqrtO : ℚ → ℚ) (ps : List (ℚ × ℚ)) (count : ℕ)
    (rand : ℕ → ℚ) (k i : ℕ) : Muscle :=
  Muscle.create i ((i + 1) % count)
    { restLength :=
        getDistance sqrtO (ps.getD i (0, 0)) (ps.getD ((i + 1) % count) (0, 0))
      stiffness := 3/10 + rand k * (7/10)
      activationType :=
        if rand (k + 1) < 1/2 then .periodic else .onGroundContact
      period := some (250 + rand (k + 2) * 1200)
      extensionFactor := some (1 + rand (k + 3) * (7/10)) }

/-- The ring-muscle loop of `createRandomCreature`. -/
def genRing (sqrtO : ℚ → ℚ) (ps : List (ℚ × ℚ)) (count : ℕ) :
    ℕ → ℕ → Gen → List Muscle × Gen
  | _, 0, g => ([], g)
  | i, m + 1, g =>
    let rest := genRing sqrtO ps count (i + 1) m ⟨g.rand, g.k + 4⟩
    (ringMuscle sqrtO ps count g.rand g.k i :: rest.1, rest.2)

/-- The cross-connection loop of `createRandomCreature`: two random body
indices; when they differ, a muscle with stiffness `0.3 + r·0.7`, period
`1000 + r·1500`, extensionFactor `1.1 + r·0.7` (a self-pick is skipped
without retry). -/
def genCross (sqrtO : ℚ → ℚ) (ps : List (ℚ × ℚ)) (count : ℕ) :
    ℕ → Gen → List Muscle × Gen
  | 0, g => ([], g)
  | m + 1, g =>
    let a := drawIdx (g.rand g.k) count
    let b := drawIdx (g.rand (g.k + 1)) count
    if a ≠ b then
      let mus := Muscle.create a b
        { restLength := getDistance sqrtO (ps.getD a (0, 0)) (ps.getD b (0, 0))
          stiffness := 3/10 + g.rand (g.k + 2) * (7/10)
          activationType :=
            if g.rand (g.k + 3) < 1/2 then .periodic else .onGroundContact
          period := some (1000 + g.rand (g.k + 4) * 1500)
          extensionFactor := some (11/10 + g.rand (g.k + 5) * (7/10)) }
      let rest := genCross sqrtO ps count m ⟨g.rand, g.k + 6⟩
      (mus :: rest.1, rest.2)
    else
      genCross sqrtO ps count m ⟨g.rand, g.k + 2⟩

/-- The data of the `Creature` object `createRandomCreature` returns: the
created body positions and the muscle array. -/
structure GenCreature where
  positions : List (ℚ × ℚ)
  muscles : List Muscle

/-- `CreatureGenerator.createRandomCreature`: body count `4 + ⌊r·8⌋`,
circle radius `15 + r·30`, the bodies, the ring muscles, `⌊count/2⌋ +
⌊r·2⌋` cross connections, then the connectivity repair. -/
def createRandomCreature (sqrtO cosO sinO : ℚ → ℚ) (piO groundY : ℚ)
    (g : Gen) : GenCreature × Gen :=
  let count := 4 + (⌊g.rand g.k * 8⌋).toNat
  let radius := 15 + g.rand (g.k + 1) * 30
  let pb := genBodies cosO sinO piO (-100) (groundY - 100) radius count 0 count
    ⟨g.rand, g.k + 2⟩
  let pm := genRing sqrtO pb.1 count 0 count pb.2
  let cross := count / 2 + (⌊pm.2.rand pm.2.k * 2⌋).toNat
  let pc := genCross sqrtO pb.1 count cross ⟨pm.2.rand, pm.2.k + 1⟩
  let st := ensureMinimumConnections sqrtO pb.1 (pm.1 ++ pc.1) pc.2
  ({ positions := pb.1, muscles := st.muscles }, st.g)

/-- The invariant `ensureMinimumConnections` maintains: the incremental
connection map agrees with the actual incidence degrees of the muscle
array, the muscle array is the input followed by the logged appends, and
every logged append joined two bodies whose degrees, at the moment of the
append, were both below 2. -/
def RepairInv (muscles0 : List Muscle) (st : RepairState) : Prop :=
  (∀ x, st.deg x = degM st.muscles x) ∧
  st.muscles = muscles0 ++ st.log.map (·.mus) ∧
  ∀ i (h : i < st.log.length),
    (st.log.get ⟨i, h⟩).degBody < 2 ∧
    (st.log.get ⟨i, h⟩).degTarget < 2 ∧
    (st.log.get ⟨i, h⟩).mus.bodyA ≠ (st.log.get ⟨i, h⟩).mus.bodyB ∧
    (st.log.get ⟨i, h⟩).degBody =
      degM (muscles0 ++ ((st.log.take i).map (·.mus)))
        (st.log.get ⟨i, h⟩).mus.bodyA ∧
    (st.log.get ⟨i, h⟩).degTarget =
      degM (muscles0 ++ ((st.log.take i).map (·.mus)))
        (st.log.get ⟨i, h⟩).mus.bodyB

/-! ## `src/World.ts` — `BasePhysicsWorld` bookkeeping -/

/-- `Math.max(...bodies.map(b => b.body.position.x))` over a creature's
current body x-positions.  Creatures always have at least four bodies, so
the `[]` case (which JS maps to `-Infinity`, likewise never beating a
stored maximum) is never reached on source-shaped data. -/
def maxOf : List ℚ → ℚ
  | [] => 0
  | x :: xs => xs.foldl max x

/-- The observation `update`/`removeCreature` record for one creature:
`const prev = this.creatureMaxDistances.get(id) || 0;
if (furthest > prev) this.creatureMaxDistances.set(id, furthest)`. -/
def observe (maxDist : List (ℕ × ℚ)) (id : ℕ) (furthest : ℚ) : List (ℕ × ℚ) :=
  if (lookupA maxDist id).getD 0 < furthest then setA maxDist id furthest
  else maxDist

/-- Ghost bookkeeping (not in the source): the unconditional running
maximum of the furthest-body observations made for each id — what the
claim calls the creature's best-known `maxX`. -/
def ghostObserve (m : List (ℕ × ℚ)) (id : ℕ) (f : ℚ) : List (ℕ × ℚ) :=
  match lookupA m id with
  | some p => setA m id (max p f)
  | none => setA m id f

/-- The bookkeeping state of `BasePhysicsWorld`: the live creature map
keys, `creatureMaxDistances`, `distanceBins`, plus ghost fields (every id
ever added, and the true running maxima) used only to state the claims. -/
structure WorldState where
  live : List ℕ
  maxDist : List (ℕ × ℚ)
  bins : List ℕ
  everAdded : List ℕ
  bestObs : List (ℕ × ℚ)

/-- The world's initial (empty) bookkeeping state. -/
def WorldState.init : WorldState := ⟨[], [], [], [], []⟩

/-- `MainWorld.addCreature`: `this.creatures.set(creature.id, ...)` (a
re-added id keeps its slot). -/
def addCreatureW (s : WorldState) (id : ℕ) : WorldState :=
  { s with
    live := if id ∈ s.live then s.live else s.live ++ [id]
    everAdded := if id ∈ s.everAdded then s.everAdded else s.everAdded ++ [id] }

/-- `BasePhysicsWorld.removeCreature`: when the id is live, record its
furthest body position into `creatureMaxDistances` and delete it from the
live map (the physics-engine removals carry no bookkeeping state); `xs`
are the creature's current body x-positions. -/
def removeCreatureW (s : WorldState) (id : ℕ) (xs : List ℚ) : WorldState :=
  if id ∈ s.live then
    { s with
      maxDist := observe s.maxDist id (maxOf xs)
      bestObs := ghostObserve s.bestObs id (maxOf xs)
      live := s.live.erase id }
  else s

/-- The histogram rebuild in `BasePhysicsWorld.update`: for each recorded
distance, grow `distanceBins` with zeroes while `length <= binIndex`, then
increment that bucket.  (For a negative bin index — impossible here since
recorded distances are positive — the JS `+= 1` writes a non-index
property and leaves the array untouched.) -/
def rebuildStep (bins : List ℕ) (e : ℕ × ℚ) : List ℕ :=
  if 0 ≤ ⌊e.2 / 100⌋ then
    let bins' := bins ++ List.replicate ((⌊e.2 / 100⌋).toNat + 1 - bins.length) 0
    bins'.set (⌊e.2 / 100⌋).toNat (bins'.getD (⌊e.2 / 100⌋).toNat 0 + 1)
  else bins

/-- The full rebuild over all `creatureMaxDistances` entries. -/
def rebuildBins (entries : List (ℕ × ℚ)) : List ℕ :=
  entries.foldl rebuildStep []

/-- `BasePhysicsWorld.update` (bookkeeping part): refresh every live
creature's recorded all-time max, then rebuild the histogram bins
(`Engine.update` and the rendering calls touch no bookkeeping state).
`env` gives each live creature's current body x-positions. -/
def updateW (s : WorldState) (env : ℕ → List ℚ) : WorldState :=
  let md := s.live.foldl (fun m id => observe m id (maxOf (env id))) s.maxDist
  { s with
    maxDist := md
    bins := rebuildBins md
    bestObs := s.live.foldl (fun m id => ghostObserve m id (maxOf (env id))) s.bestObs }

/-- Histogram bucket `k` (absent buckets read as count 0). -/
def binAt (bins : List ℕ) (k : ℕ) : ℕ := bins.getD k 0

/-- The best-known `maxX` of a creature: the largest furthest-body value
any bookkeeping observation ever saw for it (0 when never observed). -/
def bestKnown (s : WorldState) (id : ℕ) : ℚ := (lookupA s.bestObs id).getD 0

/-- The bookkeeping states reachable from construction.  Removal and
update observations are constrained to creatures with at least one body,
as produced by the generator. -/
inductive WReach : WorldState → Prop
  | init : WReach WorldState.init
  | add (s : WorldState) (id : ℕ) : WReach s → WReach (addCreatureW s id)
  | remove (s : WorldState) (id : ℕ) (xs : List ℚ) (hxs : xs ≠ []) :
      WReach s → WReach (removeCreatureW s id xs)
  | update (s : WorldState) (env : ℕ → List ℚ)
      (henv : ∀ id ∈ s.live, env id ≠ []) :
      WReach s → WReach (updateW s env)

/-- The number of ever-added creatures whose best-known `maxX` lies in
`[100k, 100k + 100)` — the count claim C9 asserts for bucket `k`. -/
def claimC9Count (s : WorldState) (k : ℕ) : ℕ :=
  (s.everAdded.filter (fun id =>
    decide ((100 : ℚ) * k ≤ bestKnown s id) &&
    decide (bestKnown s id < 100 * k + 100))).length

/-- The corrected count: additionally requires the best-known `maxX` to be
positive (creatures never observed past `x = 0` have no histogram entry). -/
def claimC9CountPos (s : WorldState) (k : ℕ) : ℕ :=
  (s.everAdded.filter (fun id =>
    decide (0 < bestKnown s id) &&
    decide ((100 : ℚ) * k ≤ bestKnown s id) &&
    decide (bestKnown s id < 100 * k + 100))).length

/-- The pointwise relation between `creatureMaxDistances` and the ghost
running maxima: an id is recorded exactly when its running maximum is
positive, and then at that value. -/
def MapsRel (md bo : List (ℕ × ℚ)) : Prop :=
  ∀ j, lookupA md j =
    (lookupA bo j).bind (fun d => if 0 < d then some d else none)

/-- The bookkeeping invariant of reachable world states:
`creatureMaxDistances` holds exactly the ids whose best observation is
positive, at that best value; all key lists are duplicate-free; and every
tracked id was added at some point. -/
def WInv (s : WorldState) : Prop :=
  MapsRel s.maxDist s.bestObs ∧
  (s.bestObs.map Prod.fst).Nodup ∧
  (s.maxDist.map Prod.fst).Nodup ∧
  s.everAdded.Nodup ∧
  (∀ id ∈ s.bestObs.map Prod.fst, id ∈ s.everAdded) ∧
  (∀ id ∈ s.live, id ∈ s.everAdded)

/-! ## Concrete inputs used by witnesses and bug evaluations -/

/-- The C9 counterexample state: one creature (id 1) added, whose single
body sits exactly at `x = 0`, then one world update. -/
def worldEx : WorldState := updateW (addCreatureW WorldState.init 1) (fun _ => [0])

/-- A creature whose single body sits at `x = 500`. -/
def farCreature : Creature :=
  { id := 1, bornAt := 0, maxX := 0,
    bodies := [{ x := 500, y := 0, vx := 0, vy := 0, angularVelocity := 0,
                 isStatic := false }],
    muscles := [] }

/-- Spawn `farCreature` at time 0, then run one main-loop iteration at time
16 (so the creature is updated, reaching `maxX = 500`, and the leaderboard
is refreshed). -/
def bugState : Controller :=
  mainLoopTick (trickleAddCreature Controller.init farCreature 0) 16 600

/-- A creature with every numeric field 0. -/
def plainCreature : Creature :=
  { id := 0, bornAt := 0, maxX := 0, bodies := [], muscles := [] }

/-- A live set at capacity: 50 identical creatures (distinguished, as in
the source array, by their position). -/
def cs50 : List Creature := List.replicate 50 plainCreature

/-- The creature `trickleAddCreature` culls from `cs50`: slot 49 (ties in
both `maxX` and `bornAt` resolve to the later slot). -/
def c3target : ℕ × Creature := (49, plainCreature)

/-- Two trickle steps from the initial state. -/
def twoTrickles : Controller :=
  trickleAddCreature (trickleAddCreature Controller.init plainCreature 0)
    plainCreature 1

/-! ## C6 scenario states -/

/-- A periodic muscle with the given period, fresh out of the constructor. -/
def periodicMuscle (p : ℚ) : Muscle :=
  Muscle.create 0 1
    { restLength := 10, stiffness := 1/2, activationType := .periodic,
      period := some p, extensionFactor := some (3/2) }

/-- The scenario muscle after `n` updates with `delta = 16`. -/
def runPeriodic (n : ℕ) : Muscle :=
  (fun m : Muscle => m.update 16 0 1 1)^[n] (periodicMuscle 100)

/-- The intermediate states of the C6 scenario. -/
def scenarioMuscle (t : ℚ) (a : Bool) : Muscle :=
  { bodyA := 0, bodyB := 1,
    config := { restLength := 10, stiffness := 1/2, activationType := .periodic,
                period := some 100, extensionFactor := some (3/2) },
    timer := t, active := a, length := if a then 15 else 10 }

/-! # Theorems -/

/-! ## Generic helper lemmas -/

theorem insDesc_perm {α : Type} (key : α → ℚ) (x : α) (l : List α) :
    List.Perm (insDesc key x l) (x :: l) := by
  induction l with
  | nil => simp [insDesc]
  | cons y ys ih =>
    simp only [insDesc]
    by_cases h : key x < key y
    · simp only [h, if_pos]
      exact ((ih.cons y).trans (List.Perm.swap x y ys))
    · simp [h]

theorem sortDescBy_perm {α : Type} (key : α → ℚ) (l : List α) :
    List.Perm (sortDescBy key l) l := by
  induction l with
  | nil => simp [sortDescBy]
  | cons x xs ih =>
    exact (insDesc_perm key x (sortDescBy key xs)).trans (ih.cons x)

theorem sortDescBy_length {α : Type} (key : α → ℚ) (l : List α) :
    (sortDescBy key l).length = l.length :=
  (sortDescBy_perm key l).length_eq

theorem le_foldl_max (l : List ℚ) (a : ℚ) : a ≤ l.foldl max a := by
  induction l generalizing a with
  | nil => exact le_refl a
  | cons x xs ih => exact le_trans (le_max_left a x) (ih (max a x))

/-! ## Claim C5 -/

/-- **C5**: for every creature and every call to
`Creature.update(delta, groundY)`, the creature's `maxX` after the call is
greater than or equal to its `maxX` before the call, so `maxX` is
non-decreasing across any sequence of updates. -/
theorem claimC5_maxX_monotone (c : Creature) (delta groundY : ℚ) :
    c.maxX ≤ (c.update delta groundY).maxX := by
  show c.maxX ≤ (c.bodies.map (·.x)).foldl max c.maxX
  exact le_foldl_max (c.bodies.map (·.x)) c.maxX

/-! ## Claim C6 -/

theorem runPeriodic_succ (n : ℕ) :
    runPeriodic (n + 1) = (runPeriodic n).update 16 0 1 1 :=
  Function.iterate_succ_apply' (fun m : Muscle => m.update 16 0 1 1) n
    (periodicMuscle 100)

theorem runPeriodic_states :
    runPeriodic 1 = scenarioMuscle 16 false ∧
    runPeriodic 2 = scenarioMuscle 32 false ∧
    runPeriodic 3 = scenarioMuscle 48 false ∧
    runPeriodic 4 = scenarioMuscle 64 false ∧
    runPeriodic 5 = scenarioMuscle 80 false ∧
    runPeriodic 6 = scenarioMuscle 96 false ∧
    runPeriodic 7 = scenarioMuscle 0 true ∧
    runPeriodic 8 = scenarioMuscle 16 true ∧
    runPeriodic 9 = scenarioMuscle 32 true ∧
    runPeriodic 10 = scenarioMuscle 48 true := by
  have h0 : runPeriodic 0 = periodicMuscle 100 := rfl
  have h1 : runPeriodic 1 = (runPeriodic 0).update 16 0 1 1 := runPeriodic_succ 0
  have s1 : runPeriodic 1 = scenarioMuscle 16 false := by
    rw [h1, h0]; norm_num [Muscle.update, periodicMuscle, Muscle.create, scenarioMuscle]
  have h2 : runPeriodic 2 = (runPeriodic 1).update 16 0 1 1 := runPeriodic_succ 1
  have s2 : runPeriodic 2 = scenarioMuscle 32 false := by
    rw [h2, s1]; norm_num [Muscle.update, scenarioMuscle]
  have h3 : runPeriodic 3 = (runPeriodic 2).update 16 0 1 1 := runPeriodic_succ 2
  have s3 : runPeriodic 3 = scenarioMuscle 48 false := by
    rw [h3, s2]; norm_num [Muscle.update, scenarioMuscle]
  have h4 : runPeriodic 4 = (runPeriodic 3).update 16 0 1 1 := runPeriodic_succ 3
  have s4 : runPeriodic 4 = scenarioMuscle 64 false := by
    rw [h4, s3]; norm_num [Muscle.update, scenarioMuscle]
  have h5 : runPeriodic 5 = (runPeriodic 4).update 16 0 1 1 := runPeriodic_succ 4
  have s5 : runPeriodic 5 = scenarioMuscle 80 false := by
    rw [h5, s4]; norm_num [Muscle.update, scenarioMuscle]
  have h6 : runPeriodic 6 = (runPeriodic 5).update 16 0 1 1 := runPeriodic_succ 5
  have s6 : runPeriodic 6 = scenarioMuscle 96 false := by
    rw [h6, s5]; norm_num [Muscle.update, scenarioMuscle]
  have h7 : runPeriodic 7 = (runPeriodic 6).update 16 0 1 1 := runPeriodic_succ 6
  have s7 : runPeriodic 7 = scenarioMuscle 0 true := by
    rw [h7, s6]; norm_num [Muscle.update, scenarioMuscle]
  have h8 : runPeriodic 8 = (runPeriodic 7).update 16 0 1 1 := runPeriodic_succ 7
  have s8 : runPeriodic 8 = scenarioMuscle 16 true := by
    rw [h8, s7]; norm_num [Muscle.update, scenarioMuscle]
  have h9 : runPeriodic 9 = (runPeriodic 8).update 16 0 1 1 := runPeriodic_succ 8
  have s9 : runPeriodic 9 = scenarioMuscle 32 true := by
    rw [h9, s8]; norm_num [Muscle.update, scenarioMuscle]
  have h10 : runPeriodic 10 = (runPeriodic 9).update 16 0 1 1 := runPeriodic_succ 9
  have s10 : runPeriodic 10 = scenarioMuscle 48 true := by
    rw [h10, s9]; norm_num [Muscle.update, scenarioMuscle]
  exact ⟨s1, s2, s3, s4, s5, s6, s7, s8, s9, s10⟩

/-- **C6**: a Periodic muscle's update adds `delta` to `timer` and flips
`active` (resetting `timer` to 0) exactly when the accumulated timer
reaches the period; the concrete scenario — period 100, ten updates of
`delta = 16` — toggles `active` exactly once, at the 7th update when the
accumulated timer reaches 112, and `active` stays true through the 10th
update. -/
theorem claimC6_periodic_muscle (m : Muscle) (delta groundY yA yB : ℚ)
    (h : m.config.activationType = .periodic) :
    ((m.config.period.getD 1000 ≤ m.timer + delta →
        (m.update delta groundY yA yB).active = !m.active ∧
        (m.update delta groundY yA yB).timer = 0) ∧
     (m.timer + delta < m.config.period.getD 1000 →
        (m.update delta groundY yA yB).active = m.active ∧
        (m.update delta groundY yA yB).timer = m.timer + delta)) ∧
    ((∀ k, k < 7 → (runPeriodic k).active = false) ∧
     (∀ k, k < 11 → 7 ≤ k → (runPeriodic k).active = true) ∧
     (runPeriodic 6).timer + 16 = 112 ∧ (runPeriodic 7).timer = 0) := by
  constructor
  · constructor
    · intro hge
      simp [Muscle.update, h, if_pos hge]
    · intro hlt
      simp [Muscle.update, h, if_neg (not_le.mpr hlt)]
  · obtain ⟨s1, s2, s3, s4, s5, s6, s7, s8, s9, s10⟩ := runPeriodic_states
    refine ⟨?_, ?_, ?_, ?_⟩
    · intro k hk
      interval_cases k
      · rfl
      · rw [s1]; rfl
      · rw [s2]; rfl
      · rw [s3]; rfl
      · rw [s4]; rfl
      · rw [s5]; rfl
      · rw [s6]; rfl
    · intro k hk hk7
      interval_cases k
      · rw [s7]; rfl
      · rw [s8]; rfl
      · rw [s9]; rfl
      · rw [s10]; rfl
    · rw [s6]; norm_num [scenarioMuscle]
    · rw [s7]; rfl

/-- Witness for C6 at a concrete input. -/
theorem claimC6_witness : (runPeriodic 7).active = true :=
  ((claimC6_periodic_muscle (periodicMuscle 100) 16 0 1 1 rfl).2.2.1) 7
    (by decide) (by decide)

/-! ## Claims C2 and C1 — the persistent leaderboard -/

/-- **C2**: in every reachable controller state the `allCreatures` map is
empty (no code path ever inserts into it), and consequently
`getTop3HighScores()` returns the empty list — after every refresh and in
fact always — no matter how many creatures were spawned or how far they
travelled. -/
theorem claimC2_allCreatures_always_empty (s : Controller) (h : Reachable s) :
    s.allCreatures = [] ∧ s.getTop3HighScores = [] := by
  suffices hs : s.allCreatures = [] ∧ s.top3HighScores = [] by
    exact ⟨hs.1, by simp [Controller.getTop3HighScores, hs.2]⟩
  induction h with
  | init => exact ⟨rfl, rfl⟩
  | trickle s fresh now hs ih =>
    constructor
    · simp only [trickleAddCreature]
      split <;> exact ih.1
    · simp only [trickleAddCreature]
      split <;> exact ih.2
  | tick s now groundY hs ih =>
    constructor
    · simpa [mainLoopTick, updateTop3HighScores] using ih.1
    · simp [mainLoopTick, updateTop3HighScores, ih.1, sortDescBy]

/-- Witness for C2 at a concrete reachable state (one spawn, one tick). -/
theorem claimC2_witness :
    Reachable bugState ∧ bugState.allCreatures = [] ∧
    bugState.getTop3HighScores = [] :=
  ⟨.tick _ 16 600 (.trickle _ farCreature 0 .init),
   (claimC2_allCreatures_always_empty bugState
     (.tick _ 16 600 (.trickle _ farCreature 0 .init))).1,
   (claimC2_allCreatures_always_empty bugState
     (.tick _ 16 600 (.trickle _ farCreature 0 .init))).2⟩

/-- **C1** (code-bug evaluation): after spawning a creature (id 1) whose
body reaches `x = 500` and running one leaderboard refresh, the live set
does contain that creature with `maxX = 500`, yet the persistent map is
still empty and the exposed top-3 is `[]` — contradicting the claim that
the map contains every id that has ever been live with its best `maxX`. -/
theorem claimC1_leaderboard_bug_eval :
    (∃ c ∈ bugState.creatures, c.id = 1 ∧ c.maxX = 500) ∧
    bugState.allCreatures = [] ∧
    bugState.getTop3HighScores = [] := by
  refine ⟨?_, rfl, rfl⟩
  norm_num [bugState, farCreature, mainLoopTick, trickleAddCreature,
    cullTarget, trickleNonTop10, trickleTop10, oldestOf, sortDescBy,
    updateTop3HighScores, setA, Controller.init, Creature.update, lifetime,
    generationSize, yAt, max_def]

/-! ## Claim C3 — the culled creature -/

theorem foldl_oldest_spec (t : List (ℕ × Creature)) (a : ℕ × Creature) :
    (t.foldl (fun x y => if x.2.bornAt < y.2.bornAt then x else y) a = a ∨
     t.foldl (fun x y => if x.2.bornAt < y.2.bornAt then x else y) a ∈ t) ∧
    (t.foldl (fun x y => if x.2.bornAt < y.2.bornAt then x else y) a).2.bornAt
      ≤ a.2.bornAt ∧
    ∀ p ∈ t,
      (t.foldl (fun x y => if x.2.bornAt < y.2.bornAt then x else y) a).2.bornAt
        ≤ p.2.bornAt := by
  induction t generalizing a with
  | nil => exact ⟨Or.inl rfl, le_refl _, by simp⟩
  | cons b t ih =>
    simp only [List.foldl_cons]
    obtain ⟨hmem, hle, hall⟩ := ih (if a.2.bornAt < b.2.bornAt then a else b)
    have hstep_a : (if a.2.bornAt < b.2.bornAt then a else b).2.bornAt ≤ a.2.bornAt := by
      by_cases hab : a.2.bornAt < b.2.bornAt
      · simp [hab]
      · simp [hab]
        exact le_of_not_lt hab
    have hstep_b : (if a.2.bornAt < b.2.bornAt then a else b).2.bornAt ≤ b.2.bornAt := by
      by_cases hab : a.2.bornAt < b.2.bornAt
      · simp [hab]
        exact le_of_lt hab
      · simp [hab]
    refine ⟨?_, le_trans hle hstep_a, ?_⟩
    · rcases hmem with h | h
      · rw [h]
        by_cases hab : a.2.bornAt < b.2.bornAt
        · left; simp [hab]
        · right; simp [hab]
      · right; exact List.mem_cons_of_mem b h
    · intro p hp
      rcases List.mem_cons.mp hp with rfl | hp'
      · exact le_trans hle hstep_b
      · exact hall p hp'

theorem oldestOf_spec (l : List (ℕ × Creature)) (r : ℕ × Creature)
    (h : oldestOf l = some r) :
    r ∈ l ∧ ∀ p ∈ l, r.2.bornAt ≤ p.2.bornAt := by
  cases l with
  | nil => cases h
  | cons a t =>
    simp only [oldestOf, Option.some.injEq] at h
    subst h
    obtain ⟨hmem, hle, hall⟩ := foldl_oldest_spec t a
    constructor
    · rcases hmem with h | h
      · rw [h]; exact List.mem_cons_self a t
      · exact List.mem_cons_of_mem a h
    · intro p hp
      rcases List.mem_cons.mp hp with rfl | hp'
      · exact hle
      · exact hall p hp'

/-- **C3**: in every trickle step with the live population at capacity, the
creature the step culls (when one exists) lies outside the
top-10-by-maxX snapshot taken at the start of the step, has minimal
`bornAt` among live creatures outside that snapshot — so a member of the
snapshot is never the one culled — and the step's resulting live list is
exactly the old list with that creature removed plus the new spawn. -/
theorem claimC3_cull_oldest_nonTop10 (cs : List Creature)
    (h50 : generationSize ≤ cs.length) (r : ℕ × Creature)
    (hr : cullTarget cs = some r) :
    r ∈ trickleNonTop10 cs ∧
    (∀ p ∈ trickleNonTop10 cs, r.2.bornAt ≤ p.2.bornAt) ∧
    (∀ q ∈ trickleTop10 cs, q.1 ≠ r.1) ∧
    (∀ (s : Controller) (fresh : Creature) (now : ℚ), s.creatures = cs →
      (trickleAddCreature s fresh now).creatures =
        (cs.enum.filter (fun p => p.1 != r.1)).map (·.2) ++
          [{ fresh with bornAt := now }]) := by
  have hr' : oldestOf (trickleNonTop10 cs) = some r := by
    simpa [cullTarget, h50] using hr
  obtain ⟨hmem, hmin⟩ := oldestOf_spec _ _ hr'
  refine ⟨hmem, hmin, ?_, ?_⟩
  · have hall := (List.mem_filter.mp hmem).2
    intro q hq
    have h2 := List.all_eq_true.mp hall q hq
    simpa using h2
  · intro s fresh now hs
    unfold trickleAddCreature
    rw [hs, hr]
    by_cases ht : (s.totalCreatures + 1) % 50 = 0 <;> simp [ht]

set_option maxRecDepth 40000 in
/-- Witness for C3: a live set of 50 creatures (all fields equal, so the
top-10 snapshot is the first ten slots and the cull target is slot 49). -/
theorem claimC3_witness :
    c3target ∈ trickleNonTop10 cs50 ∧
    ∀ q ∈ trickleTop10 cs50, q.1 ≠ c3target.1 :=
  ⟨(claimC3_cull_oldest_nonTop10 cs50 (by decide) c3target (by decide)).1,
   (claimC3_cull_oldest_nonTop10 cs50 (by decide) c3target (by decide)).2.2.1⟩

/-! ## Claim C4 — the live count never exceeds capacity -/

theorem trickleTop10_length_le (cs : List Creature) :
    (trickleTop10 cs).length ≤ 10 := by
  simp [trickleTop10]

theorem trickleNonTop10_length_ge (cs : List Creature) :
    cs.length - 10 ≤ (trickleNonTop10 cs).length := by
  classical
  have hsplit := List.length_eq_length_filter_add (l := cs.enum)
    (fun p => (trickleTop10 cs).all (fun q => q.1 != p.1))
  have hbadfst_nodup :
      ((cs.enum.filter
          (fun p => !(trickleTop10 cs).all (fun q => q.1 != p.1))).map
        Prod.fst).Nodup := by
    have hsub : List.Sublist
        (cs.enum.filter (fun p => !(trickleTop10 cs).all (fun q => q.1 != p.1)))
        cs.enum := List.filter_sublist _
    have hsubf := hsub.map Prod.fst
    rw [List.enum_map_fst] at hsubf
    exact hsubf.nodup (List.nodup_range cs.length)
  have hsubset : ∀ x ∈ (cs.enum.filter
        (fun p => !(trickleTop10 cs).all (fun q => q.1 != p.1))).map Prod.fst,
      x ∈ (trickleTop10 cs).map Prod.fst := by
    intro x hx
    obtain ⟨p, hp, rfl⟩ := List.mem_map.mp hx
    have hpf := (List.mem_filter.mp hp).2
    simp only [Bool.not_eq_true', List.all_eq_false] at hpf
    obtain ⟨q, hq, hqp⟩ := hpf
    have hqe : q.1 = p.1 := by simpa using hqp
    exact List.mem_map.mpr ⟨q, hq, hqe⟩
  have hcard : (cs.enum.filter
      (fun p => !(trickleTop10 cs).all (fun q => q.1 != p.1))).length ≤ 10 := by
    calc (cs.enum.filter
          (fun p => !(trickleTop10 cs).all (fun q => q.1 != p.1))).length
        = ((cs.enum.filter
            (fun p => !(trickleTop10 cs).all (fun q => q.1 != p.1))).map
              Prod.fst).length := (List.length_map _ _).symm
      _ = ((cs.enum.filter
            (fun p => !(trickleTop10 cs).all (fun q => q.1 != p.1))).map
              Prod.fst).toFinset.card :=
          (List.toFinset_card_of_nodup hbadfst_nodup).symm
      _ ≤ ((trickleTop10 cs).map Prod.fst).toFinset.card := by
          apply Finset.card_le_card
          intro x hx
          rw [List.mem_toFinset] at hx ⊢
          exact hsubset x hx
      _ ≤ ((trickleTop10 cs).map Prod.fst).length := List.toFinset_card_le _
      _ = (trickleTop10 cs).length := List.length_map _ _
      _ ≤ 10 := trickleTop10_length_le cs
  have henum : cs.enum.length = cs.length := List.enum_length
  have hnt : (trickleNonTop10 cs).length =
      (cs.enum.filter
        (fun p => (trickleTop10 cs).all (fun q => q.1 != p.1))).length := rfl
  omega

theorem cullTarget_isSome_of_length (cs : List Creature)
    (h : generationSize ≤ cs.length) : ∃ r, cullTarget cs = some r := by
  have h1 : 0 < (trickleNonTop10 cs).length := by
    have h2 := trickleNonTop10_length_ge cs
    simp only [generationSize] at h
    omega
  cases hnt : trickleNonTop10 cs with
  | nil => rw [hnt] at h1; simp at h1
  | cons a t =>
    refine ⟨t.foldl (fun x y => if x.2.bornAt < y.2.bornAt then x else y) a, ?_⟩
    simp [cullTarget, h, hnt, oldestOf]

theorem enum_filter_ne_length (cs : List Creature) (r : ℕ × Creature)
    (hmem : r ∈ cs.enum) :
    (cs.enum.filter (fun p => p.1 != r.1)).length = cs.length - 1 := by
  have hr1 : r.1 ∈ List.range cs.length := by
    rw [← List.enum_map_fst cs]
    exact List.mem_map_of_mem Prod.fst hmem
  have h1 : (cs.enum.map Prod.fst).countP (fun x => x == r.1) =
      cs.enum.countP (fun p => p.1 == r.1) := List.countP_map _ _ _
  rw [List.enum_map_fst] at h1
  have h2 : (List.range cs.length).countP (fun x => x == r.1) =
      (List.range cs.length).count r.1 := rfl
  have h3 : (List.range cs.length).count r.1 = 1 :=
    List.count_eq_one_of_mem (List.nodup_range _) hr1
  have hsplit := List.length_eq_length_filter_add (l := cs.enum)
    (fun p => p.1 == r.1)
  have hcp : (cs.enum.filter (fun p => p.1 == r.1)).length =
      cs.enum.countP (fun p => p.1 == r.1) :=
    (List.countP_eq_length_filter _ _).symm
  have hfe : (cs.enum.filter (fun p => !(p.1 == r.1))).length =
      (cs.enum.filter (fun p => p.1 != r.1)).length := rfl
  have henum : cs.enum.length = cs.length := List.enum_length
  omega

theorem trickle_length (s : Controller) (fresh : Creature) (now : ℚ) :
    (trickleAddCreature s fresh now).creatures.length =
      if generationSize ≤ s.creatures.length then s.creatures.length
      else s.creatures.length + 1 := by
  by_cases h : generationSize ≤ s.creatures.length
  · obtain ⟨r, hr⟩ := cullTarget_isSome_of_length s.creatures h
    have hr' : oldestOf (trickleNonTop10 s.creatures) = some r := by
      simpa [cullTarget, h] using hr
    have hmem : r ∈ s.creatures.enum :=
      List.mem_of_mem_filter (oldestOf_spec _ _ hr').1
    have hlen := enum_filter_ne_length s.creatures r hmem
    have h1 : 1 ≤ s.creatures.length := by
      simp only [generationSize] at h; omega
    unfold trickleAddCreature
    rw [hr]
    by_cases ht : (s.totalCreatures + 1) % 50 = 0 <;>
      simp [ht, hlen, if_pos h] <;> omega
  · have hr : cullTarget s.creatures = none := by simp [cullTarget, h]
    unfold trickleAddCreature
    rw [hr]
    by_cases ht : (s.totalCreatures + 1) % 50 = 0 <;> simp [ht, if_neg h]

/-- **C4**: along every sequence of trickle steps from the empty
population, the live count observed right after a trickle step is at most
50 — each step culls at most one creature and adds exactly one, and the
cull succeeds whenever the count is at capacity because the top-10
snapshot has at most ten members. -/
theorem claimC4_capacity_bound (s : Controller) (h : TrickleReach s) :
    s.creatures.length ≤ generationSize := by
  induction h with
  | init => simp [Controller.init]
  | step s fresh now hs ih =>
    rw [trickle_length]
    by_cases h : generationSize ≤ s.creatures.length
    · simpa [h] using ih
    · simp only [if_neg h]
      omega

/-- Witness for C4 after two concrete trickle steps. -/
theorem claimC4_witness : twoTrickles.creatures.length ≤ generationSize :=
  claimC4_capacity_bound twoTrickles
    (.step _ plainCreature 1 (.step _ plainCreature 0 .init))

/-! ## Claim C7 — connectivity repair -/

theorem repairBody_deg_mono (sqrtO : ℚ → ℚ) (ps : List (ℚ × ℚ)) (n b : ℕ)
    (st0 : RepairState) (x0 : ℕ) :
    st0.deg x0 ≤ (repairBody sqrtO ps n b st0).deg x0 := by
  refine repairBody.induct sqrtO ps n b
    (motive := fun s => ∀ x, s.deg x ≤ (repairBody sqrtO ps n b s).deg x)
    ?_ ?_ ?_ st0 x0
  · intro s hb candidates hlen x
    rw [repairBody]
    simp only [dif_pos hb, dif_pos hlen]
    exact le_refl _
  · intro s hb candidates hlen t dm ih x
    rw [repairBody]
    simp only [dif_pos hb, dif_neg hlen]
    refine le_trans ?_ (ih x)
    simp
  · intro s hb x
    rw [repairBody]
    simp only [dif_neg hb]
    exact le_refl _

theorem repairBody_post (sqrtO : ℚ → ℚ) (ps : List (ℚ × ℚ)) (n b : ℕ)
    (st0 : RepairState) :
    2 ≤ (repairBody sqrtO ps n b st0).deg b ∨
    (∀ u, u < n → u ≠ b → 2 ≤ (repairBody sqrtO ps n b st0).deg u) := by
  refine repairBody.induct sqrtO ps n b
    (motive := fun s =>
      2 ≤ (repairBody sqrtO ps n b s).deg b ∨
      (∀ u, u < n → u ≠ b → 2 ≤ (repairBody sqrtO ps n b s).deg u))
    ?_ ?_ ?_ st0
  · intro s hb candidates hlen
    right
    intro u hu hub
    rw [repairBody]
    simp only [dif_pos hb, dif_pos hlen]
    by_contra hlt
    push_neg at hlt
    have hmem : u ∈ candidates := by
      show u ∈ (List.range n).filter (fun t => t != b && decide (s.deg t < 2))
      simp only [List.mem_filter, List.mem_range, Bool.and_eq_true, bne_iff_ne,
        ne_eq, decide_eq_true_eq]
      exact ⟨hu, hub, hlt⟩
    rw [List.eq_nil_of_length_eq_zero hlen] at hmem
    exact (List.not_mem_nil u) hmem
  · intro s hb candidates hlen t dm ih
    rw [repairBody]
    simp only [dif_pos hb, dif_neg hlen]
    exact ih
  · intro s hb
    left
    rw [repairBody]
    simp only [dif_neg hb]
    omega

theorem degM_append_single (ms : List Muscle) (m : Muscle) (x : ℕ) :
    degM (ms ++ [m]) x =
      degM ms x +
        ((if m.bodyA = x then 1 else 0) + (if m.bodyB = x then 1 else 0)) := by
  by_cases h1 : m.bodyA = x <;> by_cases h2 : m.bodyB = x <;>
    simp [degM, List.countP_append, List.countP_cons, h1, h2] <;> omega

theorem repairBody_inv (sqrtO : ℚ → ℚ) (ps : List (ℚ × ℚ)) (n b : ℕ)
    (m0 : List Muscle) (st0 : RepairState) (h0 : RepairInv m0 st0) :
    RepairInv m0 (repairBody sqrtO ps n b st0) := by
  refine repairBody.induct sqrtO ps n b
    (motive := fun s => RepairInv m0 s → RepairInv m0 (repairBody sqrtO ps n b s))
    ?_ ?_ ?_ st0 h0
  · intro s hb candidates hlen hinv
    rw [repairBody]
    simp only [dif_pos hb, dif_pos hlen]
    exact hinv
  · intro s hb candidates hlen t dm ih hinv
    rw [repairBody]
    simp only [dif_pos hb, dif_neg hlen]
    apply ih
    simp only [RepairInv] at hinv ⊢
    obtain ⟨hdeg, hms, hlog⟩ := hinv
    have htmem : t ∈ candidates := List.get_mem candidates _ _
    have htprop := List.mem_filter.mp htmem
    have htprop2 := htprop.2
    simp only [Bool.and_eq_true, bne_iff_ne, ne_eq, decide_eq_true_eq] at htprop2
    have htne : t ≠ b := htprop2.1
    have htlt : s.deg t < 2 := htprop2.2
    have hA : dm.1.bodyA = b := rfl
    have hB : dm.1.bodyB = t := rfl
    have hcomm : ∀ u v : ℕ, (if u = v then (1:ℕ) else 0) = if v = u then 1 else 0 := by
      intro u v
      by_cases h : u = v
      · simp [h]
      · rw [if_neg h, if_neg (fun hvu => h (Eq.symm hvu))]
    refine ⟨?_, ?_, ?_⟩
    · intro x
      show s.deg x + ((if x = b then 1 else 0) + (if x = t then 1 else 0)) =
        degM (s.muscles ++ [dm.1]) x
      rw [degM_append_single, hA, hB, hdeg x, hcomm x b, hcomm x t]
    · show s.muscles ++ [dm.1] =
        m0 ++ ((s.log ++ [RepairLog.mk dm.1 (s.deg b) (s.deg t)]).map (·.mus))
      rw [hms]
      simp
    · intro i hi
      have hi' : i < s.log.length + 1 := by simpa using hi
      by_cases hil : i < s.log.length
      · have hget : (s.log ++ [RepairLog.mk dm.1 (s.deg b) (s.deg t)]).get ⟨i, hi⟩
            = s.log.get ⟨i, hil⟩ := List.get_append i hil
        show _ ∧ _ ∧ _ ∧ _ ∧ _
        rw [hget, List.take_append_of_le_length (le_of_lt hil)]
        exact hlog i hil
      · have hieq : i = s.log.length := by omega
        subst hieq
        have hget : (s.log ++ [RepairLog.mk dm.1 (s.deg b) (s.deg t)]).get
              ⟨s.log.length, hi⟩ = RepairLog.mk dm.1 (s.deg b) (s.deg t) := by
          have h2 := List.getElem_concat_length s.log
            (RepairLog.mk dm.1 (s.deg b) (s.deg t))
          simpa [List.get_eq_getElem] using h2
        show _ ∧ _ ∧ _ ∧ _ ∧ _
        rw [hget, List.take_left]
        refine ⟨hb, htlt, ?_, ?_, ?_⟩
        · show dm.1.bodyA ≠ dm.1.bodyB
          rw [hA, hB]
          exact Ne.symm htne
        · show s.deg b = degM (m0 ++ s.log.map (·.mus)) dm.1.bodyA
          rw [hA, ← hms]
          exact hdeg b
        · show s.deg t = degM (m0 ++ s.log.map (·.mus)) dm.1.bodyB
          rw [hB, ← hms]
          exact hdeg t
  · intro s hb hinv
    rw [repairBody]
    simp only [dif_neg hb]
    exact hinv

theorem foldl_repair_deg_mono (sqrtO : ℚ → ℚ) (ps : List (ℚ × ℚ)) (n : ℕ)
    (bs : List ℕ) (st : RepairState) (x : ℕ) :
    st.deg x ≤ ((bs.foldl (fun s b => repairBody sqrtO ps n b s) st).deg x) := by
  induction bs generalizing st with
  | nil => exact le_refl _
  | cons c bs ih =>
    simp only [List.foldl_cons]
    exact le_trans (repairBody_deg_mono sqrtO ps n c st x) (ih _)

theorem foldl_repair_inv (sqrtO : ℚ → ℚ) (ps : List (ℚ × ℚ)) (n : ℕ)
    (m0 : List Muscle) (bs : List ℕ) (st : RepairState) (h : RepairInv m0 st) :
    RepairInv m0 (bs.foldl (fun s b => repairBody sqrtO ps n b s) st) := by
  induction bs generalizing st with
  | nil => exact h
  | cons c bs ih =>
    simp only [List.foldl_cons]
    exact ih _ (repairBody_inv sqrtO ps n c m0 st h)

theorem foldl_repair_all (sqrtO : ℚ → ℚ) (ps : List (ℚ × ℚ)) (n : ℕ)
    (bs : List ℕ) (st : RepairState) :
    ∀ b ∈ bs,
      2 ≤ ((bs.foldl (fun s c => repairBody sqrtO ps n c s) st).deg b) ∨
      ∀ u, u < n → u ≠ b →
        2 ≤ ((bs.foldl (fun s c => repairBody sqrtO ps n c s) st).deg u) := by
  induction bs generalizing st with
  | nil => intro b hb; exact absurd hb (List.not_mem_nil b)
  | cons c bs ih =>
    intro b hb
    simp only [List.foldl_cons]
    rcases List.mem_cons.mp hb with rfl | hbs
    · rcases repairBody_post sqrtO ps n b st with h | h
      · left
        exact le_trans h (foldl_repair_deg_mono sqrtO ps n bs _ b)
      · right
        intro u hu hub
        exact le_trans (h u hu hub) (foldl_repair_deg_mono sqrtO ps n bs _ u)
    · exact ih _ b hbs

/-- **C7**: after `ensureMinimumConnections` completes, every body has at
least two incident muscles, except that a body may end below degree 2 only
when every other body already has degree ≥ 2 (no partner of degree < 2
was left to pair it with); moreover the repair only appends muscles, and
each appended muscle joins the deficient body to a distinct partner whose
incidence degrees at the moment of the append were both below 2. -/
theorem claimC7_connectivity_repair (sqrtO : ℚ → ℚ)
    (positions : List (ℚ × ℚ)) (muscles0 : List Muscle) (g : Gen) (b : ℕ)
    (hb : b < positions.length) :
    (2 ≤ degM (ensureMinimumConnections sqrtO positions muscles0 g).muscles b ∨
      ∀ u, u < positions.length → u ≠ b →
        2 ≤ degM (ensureMinimumConnections sqrtO positions muscles0 g).muscles u) ∧
    ((ensureMinimumConnections sqrtO positions muscles0 g).muscles =
      muscles0 ++
        ((ensureMinimumConnections sqrtO positions muscles0 g).log.map (·.mus))) ∧
    (∀ i (hi : i < (ensureMinimumConnections sqrtO positions muscles0 g).log.length),
      ((ensureMinimumConnections sqrtO positions muscles0 g).log.get ⟨i, hi⟩).degBody < 2 ∧
      ((ensureMinimumConnections sqrtO positions muscles0 g).log.get ⟨i, hi⟩).degTarget < 2 ∧
      ((ensureMinimumConnections sqrtO positions muscles0 g).log.get ⟨i, hi⟩).mus.bodyA ≠
        ((ensureMinimumConnections sqrtO positions muscles0 g).log.get ⟨i, hi⟩).mus.bodyB ∧
      ((ensureMinimumConnections sqrtO positions muscles0 g).log.get ⟨i, hi⟩).degBody =
        degM (muscles0 ++
            (((ensureMinimumConnections sqrtO positions muscles0 g).log.take i).map (·.mus)))
          ((ensureMinimumConnections sqrtO positions muscles0 g).log.get ⟨i, hi⟩).mus.bodyA ∧
      ((ensureMinimumConnections sqrtO positions muscles0 g).log.get ⟨i, hi⟩).degTarget =
        degM (muscles0 ++
            (((ensureMinimumConnections sqrtO positions muscles0 g).log.take i).map (·.mus)))
          ((ensureMinimumConnections sqrtO positions muscles0 g).log.get ⟨i, hi⟩).mus.bodyB) := by
  have hinv0 : RepairInv muscles0
      { deg := degM muscles0, muscles := muscles0, log := [], g := g } := by
    refine ⟨fun x => rfl, by simp, ?_⟩
    intro i hi
    exact absurd hi (by simp)
  have hinv := foldl_repair_inv sqrtO positions positions.length muscles0
    (List.range positions.length)
    { deg := degM muscles0, muscles := muscles0, log := [], g := g } hinv0
  obtain ⟨hdeg, hms, hlog⟩ := hinv
  simp only [ensureMinimumConnections]
  refine ⟨?_, hms, hlog⟩
  have hall := foldl_repair_all sqrtO positions positions.length
    (List.range positions.length)
    { deg := degM muscles0, muscles := muscles0, log := [], g := g }
    b (List.mem_range.mpr hb)
  rcases hall with h | h
  · left
    rw [← hdeg b]
    exact h
  · right
    intro u hu hub
    rw [← hdeg u]
    exact h u hu hub

/-- Witness for C7: three collinear bodies, no initial muscles, the
all-zero draw stream. -/
theorem claimC7_witness :
    2 ≤ degM (ensureMinimumConnections id [(0, 0), (1, 0), (2, 0)] []
        ⟨fun _ => 0, 0⟩).muscles 0 ∨
    ∀ u, u < ([((0 : ℚ), (0 : ℚ)), (1, 0), (2, 0)] : List (ℚ × ℚ)).length →
      u ≠ 0 →
      2 ≤ degM (ensureMinimumConnections id [(0, 0), (1, 0), (2, 0)] []
          ⟨fun _ => 0, 0⟩).muscles u :=
  (claimC7_connectivity_repair id [(0, 0), (1, 0), (2, 0)] []
    ⟨fun _ => 0, 0⟩ 0 (by decide)).1

/-! ## Claim C8 — createRandomCreature -/

theorem genBodies_length (cosO sinO : ℚ → ℚ) (piO cX cY radius : ℚ)
    (count : ℕ) : ∀ (m i : ℕ) (g : Gen),
    (genBodies cosO sinO piO cX cY radius count i m g).1.length = m := by
  intro m
  induction m with
  | zero => intro i g; rfl
  | succ m ih =>
    intro i g
    simp only [genBodies, List.length_cons]
    rw [ih]

theorem genBodies_rand (cosO sinO : ℚ → ℚ) (piO cX cY radius : ℚ)
    (count : ℕ) : ∀ (m i : ℕ) (g : Gen),
    (genBodies cosO sinO piO cX cY radius count i m g).2.rand = g.rand := by
  intro m
  induction m with
  | zero => intro i g; rfl
  | succ m ih =>
    intro i g
    simp only [genBodies]
    rw [ih]

theorem genRing_length (sqrtO : ℚ → ℚ) (ps : List (ℚ × ℚ)) (count : ℕ) :
    ∀ (m i : ℕ) (g : Gen),
    (genRing sqrtO ps count i m g).1.length = m := by
  intro m
  induction m with
  | zero => intro i g; rfl
  | succ m ih =>
    intro i g
    simp only [genRing, List.length_cons]
    rw [ih]

theorem genRing_get (sqrtO : ℚ → ℚ) (ps : List (ℚ × ℚ)) (count : ℕ) :
    ∀ (m j i : ℕ) (g : Gen), j < m →
    (genRing sqrtO ps count i m g).1.get? j =
      some (ringMuscle sqrtO ps count g.rand (g.k + 4 * j) (i + j)) := by
  intro m
  induction m with
  | zero => intro j i g hj; omega
  | succ m ih =>
    intro j i g hj
    cases j with
    | zero =>
      simp only [genRing, List.get?_cons_zero, Option.some.injEq]
      norm_num
    | succ j =>
      simp only [genRing, List.get?_cons_succ]
      rw [ih j (i + 1) ⟨g.rand, g.k + 4⟩ (by omega)]
      show some (ringMuscle sqrtO ps count g.rand (g.k + 4 + 4 * j) (i + 1 + j)) = _
      have e1 : g.k + 4 + 4 * j = g.k + 4 * (j + 1) := by ring
      have e2 : i + 1 + j = i + (j + 1) := by ring
      rw [e1, e2]

theorem ensureMin_muscles_prefix (sqrtO : ℚ → ℚ) (ps : List (ℚ × ℚ))
    (ms : List Muscle) (g : Gen) :
    ∃ L, (ensureMinimumConnections sqrtO ps ms g).muscles = ms ++ L := by
  have hinv0 : RepairInv ms
      { deg := degM ms, muscles := ms, log := [], g := g } := by
    refine ⟨fun x => rfl, by simp, ?_⟩
    intro i hi
    exact absurd hi (by simp)
  have hinv := foldl_repair_inv sqrtO ps ps.length ms (List.range ps.length)
    { deg := degM ms, muscles := ms, log := [], g := g } hinv0
  exact ⟨_, hinv.2.1⟩

theorem randMul_bounds (r c : ℚ) (h0 : 0 ≤ r) (h1 : r < 1) (hc : 0 < c) :
    0 ≤ r * c ∧ r * c < c := by
  constructor
  · exact mul_nonneg h0 (le_of_lt hc)
  · calc r * c < 1 * c := mul_lt_mul_of_pos_right h1 hc
      _ = c := one_mul c

/-- **C8**: for every run of `createRandomCreature` — quantifying over all
sequences of `Math.random()` draws in `[0, 1)` — the body count lies in
`[4, 11]`, and for each slot `i` below the body count, muscle `i` is the
ring muscle joining body `i` to body `(i+1) mod n`, with rest length equal
to the Euclidean distance between those two bodies at creation time,
stiffness in `[0.3, 1)`, period in `[250, 1450)` and extensionFactor in
`[1, 1.7)`. -/
theorem claimC8_ring_muscles (sqrtO cosO sinO : ℚ → ℚ) (piO groundY : ℚ)
    (rand : ℕ → ℚ) (k0 : ℕ) (hr : ∀ j, 0 ≤ rand j ∧ rand j < 1)
    (c : GenCreature)
    (hc : c = (createRandomCreature sqrtO cosO sinO piO groundY ⟨rand, k0⟩).1) :
    (4 ≤ c.positions.length ∧ c.positions.length ≤ 11) ∧
    ∀ i, i < c.positions.length →
      ∃ m, c.muscles.get? i = some m ∧ m.bodyA = i ∧
        m.bodyB = (i + 1) % c.positions.length ∧
        m.config.restLength = getDistance sqrtO (c.positions.getD i (0, 0))
          (c.positions.getD ((i + 1) % c.positions.length) (0, 0)) ∧
        (3/10 ≤ m.config.stiffness ∧ m.config.stiffness < 1) ∧
        (∃ p, m.config.period = some p ∧ 250 ≤ p ∧ p < 1450) ∧
        (∃ e, m.config.extensionFactor = some e ∧ 1 ≤ e ∧ e < 17/10) := by
  subst hc
  obtain ⟨hk0, hk1⟩ := hr k0
  have hfl : (0 : ℤ) ≤ ⌊rand k0 * 8⌋ ∧ ⌊rand k0 * 8⌋ < 8 := by
    obtain ⟨hm0, hm1⟩ := randMul_bounds (rand k0) 8 hk0 hk1 (by norm_num)
    constructor
    · exact Int.floor_nonneg.mpr hm0
    · exact Int.floor_lt.mpr (by exact_mod_cast hm1)
  have hcnt : (⌊rand k0 * 8⌋).toNat ≤ 7 := by omega
  have hpos : (createRandomCreature sqrtO cosO sinO piO groundY ⟨rand, k0⟩).1.positions
      = (genBodies cosO sinO piO (-100) (groundY - 100) (15 + rand (k0 + 1) * 30)
          (4 + (⌊rand k0 * 8⌋).toNat) 0 (4 + (⌊rand k0 * 8⌋).toNat)
          ⟨rand, k0 + 2⟩).1 := rfl
  have hplen : (createRandomCreature sqrtO cosO sinO piO groundY ⟨rand, k0⟩).1.positions.length
      = 4 + (⌊rand k0 * 8⌋).toNat := by
    rw [hpos]
    exact genBodies_length _ _ _ _ _ _ _ _ _ _
  refine ⟨⟨by omega, by omega⟩, ?_⟩
  intro i hi
  rw [hplen] at hi
  set count := 4 + (⌊rand k0 * 8⌋).toNat with hcount
  set pb := genBodies cosO sinO piO (-100) (groundY - 100)
    (15 + rand (k0 + 1) * 30) count 0 count ⟨rand, k0 + 2⟩ with hpb
  set pm := genRing sqrtO pb.1 count 0 count pb.2 with hpm
  set pc := genCross sqrtO pb.1 count
    (count / 2 + (⌊pm.2.rand pm.2.k * 2⌋).toNat) ⟨pm.2.rand, pm.2.k + 1⟩ with hpc
  have hmus : (createRandomCreature sqrtO cosO sinO piO groundY ⟨rand, k0⟩).1.muscles
      = (ensureMinimumConnections sqrtO pb.1 (pm.1 ++ pc.1) pc.2).muscles := rfl
  obtain ⟨L, hL⟩ := ensureMin_muscles_prefix sqrtO pb.1 (pm.1 ++ pc.1) pc.2
  have hringlen : pm.1.length = count := by
    rw [hpm]
    exact genRing_length _ _ _ _ _ _
  have hget : (createRandomCreature sqrtO cosO sinO piO groundY ⟨rand, k0⟩).1.muscles.get? i
      = pm.1.get? i := by
    rw [hmus, hL, List.append_assoc, List.get?_append]
    rw [hringlen]
    exact hi
  have hringget : pm.1.get? i =
      some (ringMuscle sqrtO pb.1 count pb.2.rand (pb.2.k + 4 * i) (0 + i)) := by
    rw [hpm]
    exact genRing_get _ _ _ _ _ _ _ hi
  have hrandpb : pb.2.rand = rand := by
    rw [hpb]
    exact genBodies_rand _ _ _ _ _ _ _ _ _ _
  refine ⟨ringMuscle sqrtO pb.1 count pb.2.rand (pb.2.k + 4 * i) (0 + i),
    by rw [hget, hringget], ?_, ?_, ?_, ?_, ?_, ?_⟩
  · show 0 + i = i
    omega
  · show (0 + i + 1) % count = (i + 1) % (createRandomCreature sqrtO cosO sinO
      piO groundY ⟨rand, k0⟩).1.positions.length
    rw [hplen, Nat.zero_add]
  · show getDistance sqrtO (pb.1.getD (0 + i) (0, 0))
        (pb.1.getD ((0 + i + 1) % count) (0, 0)) = _
    rw [Nat.zero_add]
    have hp1 : (createRandomCreature sqrtO cosO sinO piO groundY
        ⟨rand, k0⟩).1.positions = pb.1 := hpos
    have hpblen : pb.1.length = count := by
      rw [hpb]
      exact genBodies_length _ _ _ _ _ _ _ _ _ _
    rw [hp1, hpblen]
  · show 3/10 ≤ 3/10 + pb.2.rand (pb.2.k + 4 * i) * (7/10) ∧
      3/10 + pb.2.rand (pb.2.k + 4 * i) * (7/10) < 1
    rw [hrandpb]
    obtain ⟨hq0, hq1⟩ := hr (pb.2.k + 4 * i)
    obtain ⟨hm0, hm1⟩ := randMul_bounds _ (7/10) hq0 hq1 (by norm_num)
    constructor <;> linarith
  · refine ⟨250 + pb.2.rand (pb.2.k + 4 * i + 2) * 1200, rfl, ?_⟩
    rw [hrandpb]
    obtain ⟨hq0, hq1⟩ := hr (pb.2.k + 4 * i + 2)
    obtain ⟨hm0, hm1⟩ := randMul_bounds _ 1200 hq0 hq1 (by norm_num)
    constructor <;> linarith
  · refine ⟨1 + pb.2.rand (pb.2.k + 4 * i + 3) * (7/10), rfl, ?_⟩
    rw [hrandpb]
    obtain ⟨hq0, hq1⟩ := hr (pb.2.k + 4 * i + 3)
    obtain ⟨hm0, hm1⟩ := randMul_bounds _ (7/10) hq0 hq1 (by norm_num)
    constructor <;> linarith

/-- Witness for C8: the all-zero draw stream and identity oracles. -/
theorem claimC8_witness :
    4 ≤ (createRandomCreature id id id 0 600 ⟨fun _ => 0, 0⟩).1.positions.length :=
  ((claimC8_ring_muscles id id id 0 600 (fun _ => 0) 0
    (fun _ => ⟨by norm_num, by norm_num⟩) _ rfl).1).1

/-! ## Claim C9 — the distance histogram -/

theorem lookupA_setA {β : Type} (m : List (ℕ × β)) (k j : ℕ) (v : β) :
    lookupA (setA m k v) j = if j = k then some v else lookupA m j := by
  induction m with
  | nil =>
    by_cases hjk : j = k
    · simp [setA, lookupA, hjk]
    · have hkj : k ≠ j := fun h => hjk (Eq.symm h)
      simp [setA, lookupA, List.find?_cons, hkj, hjk]
  | cons e m ih =>
    simp only [setA]
    by_cases hek : (e.1 == k) = true
    · rw [if_pos hek]
      have hekeq : e.1 = k := by simpa using hek
      by_cases hjk : j = k
      · subst hjk
        simp [lookupA, List.find?_cons]
      · have hkj : k ≠ j := fun h => hjk (Eq.symm h)
        have h1 : (k == j) = false := by simpa using hkj
        have h2 : (e.1 == j) = false := by rw [hekeq]; exact h1
        simp [lookupA, List.find?_cons, h1, h2, hjk]
    · rw [if_neg hek]
      by_cases hej : (e.1 == j) = true
      · have hejeq : e.1 = j := by simpa using hej
        have hjk : j ≠ k := by
          intro h
          rw [h] at hejeq
          exact hek (by simp [hejeq])
        simp [lookupA, List.find?_cons, hej, hjk]
      · have hej2 : (e.1 == j) = false := by simpa using hej
        by_cases hjk : j = k
        · subst hjk
          have hekf : (e.1 == j) = false := by simpa using hek
          simpa [lookupA, List.find?_cons, hekf] using ih
        · simpa [lookupA, List.find?_cons, hej2, hjk] using ih

theorem keys_setA {β : Type} (m : List (ℕ × β)) (k : ℕ) (v : β) :
    (setA m k v).map Prod.fst =
      if k ∈ m.map Prod.fst then m.map Prod.fst
      else m.map Prod.fst ++ [k] := by
  induction m with
  | nil => simp [setA]
  | cons e m ih =>
    simp only [setA, List.map_cons]
    by_cases hek : (e.1 == k) = true
    · have hekeq : e.1 = k := by simpa using hek
      rw [if_pos hek]
      simp [hekeq]
    · have hne : e.1 ≠ k := by simpa using hek
      have hkne : k ≠ e.1 := fun h => hne (Eq.symm h)
      rw [if_neg hek]
      simp only [List.map_cons, ih]
      by_cases hk : k ∈ m.map Prod.fst
      · simp [hk, hkne]
      · simp [hk, hkne]

theorem keys_setA_nodup {β : Type} (m : List (ℕ × β)) (k : ℕ) (v : β)
    (h : (m.map Prod.fst).Nodup) : ((setA m k v).map Prod.fst).Nodup := by
  rw [keys_setA]
  by_cases hk : k ∈ m.map Prod.fst
  · simpa [hk]
  · simp [hk, List.nodup_append, h]

theorem mem_keys_setA {β : Type} (m : List (ℕ × β)) (k : ℕ) (v : β) (j : ℕ)
    (h : j ∈ (setA m k v).map Prod.fst) : j ∈ m.map Prod.fst ∨ j = k := by
  rw [keys_setA] at h
  by_cases hk : k ∈ m.map Prod.fst
  · rw [if_pos hk] at h
    exact Or.inl h
  · rw [if_neg hk] at h
    rcases List.mem_append.mp h with h1 | h1
    · exact Or.inl h1
    · exact Or.inr (by simpa using h1)

theorem lookupA_isSome_iff {β : Type} (m : List (ℕ × β)) (k : ℕ) :
    (∃ v, lookupA m k = some v) ↔ k ∈ m.map Prod.fst := by
  induction m with
  | nil => simp [lookupA]
  | cons e m ih =>
    by_cases hek : (e.1 == k) = true
    · have hekeq : e.1 = k := by simpa using hek
      simp [lookupA, List.find?_cons, hek, hekeq]
    · have hne : e.1 ≠ k := by simpa using hek
      have hne2 : k ≠ e.1 := fun h => hne (Eq.symm h)
      have hek2 : (e.1 == k) = false := by simpa using hek
      simpa [lookupA, List.find?_cons, hek2, hne2] using ih

theorem MapsRel_observe (md bo : List (ℕ × ℚ)) (id : ℕ) (f : ℚ)
    (h : MapsRel md bo) :
    MapsRel (observe md id f) (ghostObserve bo id f) := by
  intro j
  by_cases hj : j = id
  · subst hj
    have hmd := h j
    have hL : lookupA (observe md j f) j =
        if (lookupA md j).getD 0 < f then some f else lookupA md j := by
      unfold observe
      split
      · rw [lookupA_setA, if_pos rfl]
      · rfl
    cases hbo : lookupA bo j with
    | none =>
      rw [hbo, Option.none_bind] at hmd
      have hR : lookupA (ghostObserve bo j f) j = some f := by
        unfold ghostObserve
        rw [hbo, lookupA_setA, if_pos rfl]
      rw [hL, hR, hmd, Option.some_bind]
      simp only [Option.getD_none]
    | some p =>
      rw [hbo, Option.some_bind] at hmd
      have hR : lookupA (ghostObserve bo j f) j = some (max p f) := by
        unfold ghostObserve
        rw [hbo, lookupA_setA, if_pos rfl]
      rw [hL, hR, Option.some_bind]
      by_cases hp : 0 < p
      · rw [if_pos hp] at hmd
        rw [hmd]
        simp only [Option.getD_some]
        by_cases hpf : p < f
        · rw [if_pos hpf, max_eq_right (le_of_lt hpf), if_pos (lt_trans hp hpf)]
        · rw [if_neg hpf, max_eq_left (le_of_not_lt hpf), if_pos hp]
      · rw [if_neg hp] at hmd
        rw [hmd]
        simp only [Option.getD_none]
        have hple : p ≤ 0 := le_of_not_lt hp
        by_cases h0f : 0 < f
        · rw [if_pos h0f, max_eq_right (le_trans hple (le_of_lt h0f)), if_pos h0f]
        · rw [if_neg h0f,
            if_neg (not_lt.mpr (max_le hple (le_of_not_lt h0f)))]
  · have hL : lookupA (observe md id f) j = lookupA md j := by
      unfold observe
      split
      · rw [lookupA_setA, if_neg hj]
      · rfl
    have hR : lookupA (ghostObserve bo id f) j = lookupA bo j := by
      unfold ghostObserve
      cases hbo : lookupA bo id with
      | none => rw [lookupA_setA, if_neg hj]
      | some p => rw [lookupA_setA, if_neg hj]
    rw [hL, hR]
    exact h j

theorem MapsRel_observe_fold (live : List ℕ) (env : ℕ → List ℚ)
    (md bo : List (ℕ × ℚ)) (h : MapsRel md bo) :
    MapsRel (live.foldl (fun m id => observe m id (maxOf (env id))) md)
      (live.foldl (fun m id => ghostObserve m id (maxOf (env id))) bo) := by
  induction live generalizing md bo with
  | nil => exact h
  | cons c live ih =>
    simp only [List.foldl_cons]
    exact ih _ _ (MapsRel_observe md bo c (maxOf (env c)) h)

theorem keys_observe_nodup (m : List (ℕ × ℚ)) (id : ℕ) (f : ℚ)
    (h : (m.map Prod.fst).Nodup) : ((observe m id f).map Prod.fst).Nodup := by
  unfold observe
  split
  · exact keys_setA_nodup m id f h
  · exact h

theorem mem_keys_observe (m : List (ℕ × ℚ)) (id : ℕ) (f : ℚ) (j : ℕ)
    (h : j ∈ (observe m id f).map Prod.fst) :
    j ∈ m.map Prod.fst ∨ j = id := by
  unfold observe at h
  split at h
  · exact mem_keys_setA m id f j h
  · exact Or.inl h

theorem keys_ghostObserve_nodup (m : List (ℕ × ℚ)) (id : ℕ) (f : ℚ)
    (h : (m.map Prod.fst).Nodup) :
    ((ghostObserve m id f).map Prod.fst).Nodup := by
  unfold ghostObserve
  split
  · exact keys_setA_nodup m id _ h
  · exact keys_setA_nodup m id _ h

theorem mem_keys_ghostObserve (m : List (ℕ × ℚ)) (id : ℕ) (f : ℚ) (j : ℕ)
    (h : j ∈ (ghostObserve m id f).map Prod.fst) :
    j ∈ m.map Prod.fst ∨ j = id := by
  unfold ghostObserve at h
  split at h
  · exact mem_keys_setA m id _ j h
  · exact mem_keys_setA m id _ j h

theorem keys_observe_fold_nodup (live : List ℕ) (env : ℕ → List ℚ)
    (m : List (ℕ × ℚ)) (h : (m.map Prod.fst).Nodup) :
    (((live.foldl (fun m id => observe m id (maxOf (env id))) m)).map
      Prod.fst).Nodup := by
  induction live generalizing m with
  | nil => exact h
  | cons c live ih =>
    simp only [List.foldl_cons]
    exact ih _ (keys_observe_nodup m c _ h)

theorem keys_ghost_fold_nodup (live : List ℕ) (env : ℕ → List ℚ)
    (m : List (ℕ × ℚ)) (h : (m.map Prod.fst).Nodup) :
    (((live.foldl (fun m id => ghostObserve m id (maxOf (env id))) m)).map
      Prod.fst).Nodup := by
  induction live generalizing m with
  | nil => exact h
  | cons c live ih =>
    simp only [List.foldl_cons]
    exact ih _ (keys_ghostObserve_nodup m c _ h)

theorem mem_keys_ghost_fold (live : List ℕ) (env : ℕ → List ℚ)
    (m : List (ℕ × ℚ)) (j : ℕ)
    (h : j ∈ ((live.foldl (fun m id => ghostObserve m id (maxOf (env id))) m)).map
      Prod.fst) :
    j ∈ m.map Prod.fst ∨ j ∈ live := by
  induction live generalizing m with
  | nil => exact Or.inl h
  | cons c live ih =>
    simp only [List.foldl_cons] at h
    rcases ih _ h with h1 | h1
    · rcases mem_keys_ghostObserve m c _ j h1 with h2 | h2
      · exact Or.inl h2
      · exact Or.inr (h2 ▸ List.mem_cons_self c live)
    · exact Or.inr (List.mem_cons_of_mem c h1)

/-- Every reachable world state satisfies the bookkeeping invariant. -/
theorem WInv_reachable (s : WorldState) (h : WReach s) : WInv s := by
  induction h with
  | init =>
    refine ⟨fun j => rfl, by simp [WorldState.init], by simp [WorldState.init],
      by simp [WorldState.init], ?_, ?_⟩
    · intro id hid
      simp [WorldState.init] at hid
    · intro id hid
      simp [WorldState.init] at hid
  | add s id hs ih =>
    obtain ⟨hrel, hbo, hmd, hea, hsub, hlive⟩ := ih
    refine ⟨hrel, hbo, hmd, ?_, ?_, ?_⟩
    · show (if id ∈ s.everAdded then s.everAdded else s.everAdded ++ [id]).Nodup
      split
      · exact hea
      · next hmem => simp [List.nodup_append, hea, hmem]
    · intro j hj
      show j ∈ (if id ∈ s.everAdded then s.everAdded else s.everAdded ++ [id])
      split
      · exact hsub j hj
      · exact List.mem_append_left _ (hsub j hj)
    · intro j hj
      show j ∈ (if id ∈ s.everAdded then s.everAdded else s.everAdded ++ [id])
      have hj' : j ∈ (if id ∈ s.live then s.live else s.live ++ [id]) := hj
      split
      · next hmem =>
        split at hj'
        · exact hlive j hj'
        · rcases List.mem_append.mp hj' with h1 | h1
          · exact hlive j h1
          · simp at h1
            exact h1 ▸ hmem
      · next hmem =>
        split at hj'
        · exact List.mem_append_left _ (hlive j hj')
        · rcases List.mem_append.mp hj' with h1 | h1
          · exact List.mem_append_left _ (hlive j h1)
          · simp at h1
            exact h1 ▸ List.mem_append_right _ (by simp)
  | remove s id xs hxs hs ih =>
    obtain ⟨hrel, hbo, hmd, hea, hsub, hlive⟩ := ih
    unfold removeCreatureW
    split
    · next hmem =>
      refine ⟨MapsRel_observe _ _ _ _ hrel, keys_ghostObserve_nodup _ _ _ hbo,
        keys_observe_nodup _ _ _ hmd, hea, ?_, ?_⟩
      · intro j hj
        rcases mem_keys_ghostObserve _ _ _ _ hj with h1 | h1
        · exact hsub j h1
        · exact h1 ▸ hlive id hmem
      · intro j hj
        exact hlive j (List.erase_subset _ _ hj)
    · exact ⟨hrel, hbo, hmd, hea, hsub, hlive⟩
  | update s env henv hs ih =>
    obtain ⟨hrel, hbo, hmd, hea, hsub, hlive⟩ := ih
    refine ⟨MapsRel_observe_fold _ _ _ _ hrel, keys_ghost_fold_nodup _ _ _ hbo,
      keys_observe_fold_nodup _ _ _ hmd, hea, ?_, hlive⟩
    intro j hj
    rcases mem_keys_ghost_fold _ _ _ _ hj with h1 | h1
    · exact hsub j h1
    · exact hlive j h1

theorem binAt_append_zeros (bins : List ℕ) (m k : ℕ) :
    binAt (bins ++ List.replicate m 0) k = binAt bins k := by
  unfold binAt
  rcases lt_or_ge k bins.length with h | h
  · simp [List.getD, List.getElem?_append, h]
  · rw [List.getD_eq_default _ _ h]
    rcases lt_or_ge (k - bins.length) m with h2 | h2
    · simp [List.getD, List.getElem?_append, Nat.not_lt.mpr h,
        List.getElem?_replicate, h2]
    · rw [List.getD_eq_default]
      simp only [List.length_append, List.length_replicate]
      omega

theorem binAt_set_getD (l : List ℕ) (i k : ℕ) (h : i < l.length) :
    binAt (l.set i (l.getD i 0 + 1)) k =
      binAt l k + (if k = i then 1 else 0) := by
  unfold binAt
  by_cases hk : k = i
  · subst hk
    rw [if_pos rfl]
    simp [List.getD, List.getElem?_set_self, h]
  · rw [if_neg hk]
    simp [List.getD, List.getElem?_set_ne (fun h2 => hk (Eq.symm h2))]

theorem toNat_floor_cast (bi : ℤ) (k : ℕ) (h0 : 0 ≤ bi) :
    (bi.toNat = k) ↔ bi = (k : ℤ) := by omega

theorem binAt_rebuildStep (bins : List ℕ) (e : ℕ × ℚ) (k : ℕ) :
    binAt (rebuildStep bins e) k =
      binAt bins k + (if ⌊e.2 / 100⌋ = (k : ℤ) then 1 else 0) := by
  unfold rebuildStep
  by_cases h0 : 0 ≤ ⌊e.2 / 100⌋
  · rw [if_pos h0]
    have hlen : (⌊e.2 / 100⌋).toNat <
        (bins ++ List.replicate ((⌊e.2 / 100⌋).toNat + 1 - bins.length) 0).length := by
      simp only [List.length_append, List.length_replicate]
      omega
    have hset := binAt_set_getD
      (bins ++ List.replicate ((⌊e.2 / 100⌋).toNat + 1 - bins.length) 0)
      (⌊e.2 / 100⌋).toNat k hlen
    have hpad := binAt_append_zeros bins ((⌊e.2 / 100⌋).toNat + 1 - bins.length) k
    show binAt ((bins ++ List.replicate ((⌊e.2 / 100⌋).toNat + 1 - bins.length) 0).set
        (⌊e.2 / 100⌋).toNat
        ((bins ++ List.replicate ((⌊e.2 / 100⌋).toNat + 1 - bins.length) 0).getD
          (⌊e.2 / 100⌋).toNat 0 + 1)) k = _
    rw [hset, hpad]
    congr 1
    by_cases hk : k = (⌊e.2 / 100⌋).toNat
    · rw [if_pos hk, if_pos (by omega)]
    · rw [if_neg hk, if_neg (by omega)]
  · rw [if_neg h0]
    rw [if_neg (by omega)]
    omega

theorem binAt_rebuild_fold (es : List (ℕ × ℚ)) (acc : List ℕ) (k : ℕ) :
    binAt (es.foldl rebuildStep acc) k =
      binAt acc k +
        (es.filter (fun e => decide (⌊e.2 / 100⌋ = (k : ℤ)))).length := by
  induction es generalizing acc with
  | nil => simp
  | cons e es ih =>
    simp only [List.foldl_cons, List.filter_cons]
    rw [ih, binAt_rebuildStep]
    by_cases hc : ⌊e.2 / 100⌋ = (k : ℤ)
    · simp [hc]
      omega
    · simp [hc]

theorem binAt_rebuildBins (es : List (ℕ × ℚ)) (k : ℕ) :
    binAt (rebuildBins es) k =
      (es.filter (fun e => decide (⌊e.2 / 100⌋ = (k : ℤ)))).length := by
  unfold rebuildBins
  rw [binAt_rebuild_fold]
  simp [binAt]

theorem floor_div100_eq_iff (d : ℚ) (k : ℕ) :
    ⌊d / 100⌋ = (k : ℤ) ↔ (100 * (k : ℚ) ≤ d ∧ d < 100 * k + 100) := by
  rw [Int.floor_eq_iff]
  constructor
  · rintro ⟨h1, h2⟩
    have h1' := (le_div_iff (by norm_num : (0 : ℚ) < 100)).mp h1
    have h2' := (div_lt_iff (by norm_num : (0 : ℚ) < 100)).mp h2
    push_cast at h1' h2' ⊢
    constructor <;> linarith
  · rintro ⟨h1, h2⟩
    constructor
    · rw [le_div_iff (by norm_num : (0 : ℚ) < 100)]
      push_cast
      linarith
    · rw [div_lt_iff (by norm_num : (0 : ℚ) < 100)]
      push_cast
      linarith

theorem assoc_filter_count (m : List (ℕ × ℚ)) (P : ℚ → Bool)
    (hnd : (m.map Prod.fst).Nodup) :
    (m.filter (fun e => P e.2)).length =
      ((m.map Prod.fst).filter
        (fun id => ((lookupA m id).map P).getD false)).length := by
  induction m with
  | nil => rfl
  | cons e m ih =>
    simp only [List.map_cons, List.nodup_cons] at hnd
    obtain ⟨hnotmem, hnd'⟩ := hnd
    have hhead : lookupA (e :: m) e.1 = some e.2 := by
      simp [lookupA, List.find?_cons]
    have htail : ∀ id ∈ m.map Prod.fst, lookupA (e :: m) id = lookupA m id := by
      intro id hid
      have hne : e.1 ≠ id := fun h => hnotmem (h ▸ hid)
      have hne2 : (e.1 == id) = false := by simpa using hne
      simp [lookupA, List.find?_cons, hne2]
    have hcongr : (m.map Prod.fst).filter
          (fun id => ((lookupA (e :: m) id).map P).getD false) =
        (m.map Prod.fst).filter
          (fun id => ((lookupA m id).map P).getD false) := by
      apply List.filter_congr
      intro id hid
      rw [htail id hid]
    simp only [List.filter_cons, List.map_cons]
    rw [hhead] at *
    by_cases hP : P e.2 = true
    · simp only [hP, if_pos, List.length_cons]
      have : (((some e.2).map P).getD false) = true := by simp [hP]
      simp only [hhead, this, if_pos, List.length_cons]
      rw [hcongr]
      exact congrArg (· + 1) (ih hnd')
    · have hPf : P e.2 = false := by simpa using hP
      simp only [hPf, Bool.false_eq_true, if_neg]
      have : (((some e.2).map P).getD false) = false := by simp [hPf]
      simp only [hhead, this, Bool.false_eq_true, if_neg]
      rw [hcongr]
      exact ih hnd'

/-- **C9 (amended)**: after each physics-world update, histogram bucket
`k` holds a count equal to the number of creatures ever added (live or
already removed) whose best-known `maxX` `d` is positive and satisfies
`100k ≤ d < 100k + 100`.  (The positivity condition is the amendment: the
`get(id) || 0` default plus the strict `furthest > prev` comparison means
a creature whose furthest observed position never exceeds 0 is never
entered into `creatureMaxDistances`.) -/
theorem claimC9_histogram_amended (s : WorldState) (h : WReach s)
    (env : ℕ → List ℚ) (henv : ∀ id ∈ s.live, env id ≠ []) (k : ℕ) :
    binAt (updateW s env).bins k = claimC9CountPos (updateW s env) k := by
  obtain ⟨hrel, hbo, hmd, hea, hsub, hlive⟩ :=
    WInv_reachable _ (WReach.update s env henv h)
  have hbins : (updateW s env).bins = rebuildBins (updateW s env).maxDist := rfl
  rw [hbins, binAt_rebuildBins,
    assoc_filter_count _ (fun v => decide (⌊v / 100⌋ = (k : ℤ))) hmd]
  unfold claimC9CountPos
  apply List.Perm.length_eq
  apply List.perm_of_nodup_nodup_toFinset_eq (hmd.filter _) (hea.filter _)
  apply Finset.ext
  intro j
  simp only [List.mem_toFinset, List.mem_filter]
  constructor
  · rintro ⟨hjk, hjq⟩
    obtain ⟨v, hv⟩ := (lookupA_isSome_iff _ _).mpr hjk
    rw [hv] at hjq
    simp only [Option.map_some', Option.getD_some, decide_eq_true_eq] at hjq
    have hrelj := hrel j
    rw [hv] at hrelj
    cases hbo2 : lookupA (updateW s env).bestObs j with
    | none =>
      rw [hbo2, Option.none_bind] at hrelj
      cases hrelj
    | some d =>
      rw [hbo2, Option.some_bind] at hrelj
      by_cases hd : 0 < d
      · rw [if_pos hd] at hrelj
        have hvd : v = d := by
          have := hrelj
          simp only [Option.some.injEq] at this
          exact this
        have hbk : bestKnown (updateW s env) j = d := by
          unfold bestKnown
          rw [hbo2]
          rfl
        obtain ⟨hge, hlt⟩ := (floor_div100_eq_iff v k).mp hjq
        refine ⟨hsub j ((lookupA_isSome_iff _ _).mp ⟨d, hbo2⟩), ?_⟩
        simp only [Bool.and_eq_true, decide_eq_true_eq, hbk]
        subst hvd
        exact ⟨⟨hd, hge⟩, hlt⟩
      · rw [if_neg hd] at hrelj
        cases hrelj
  · rintro ⟨hje, hjq⟩
    simp only [Bool.and_eq_true, decide_eq_true_eq] at hjq
    obtain ⟨⟨hpos, hge⟩, hlt⟩ := hjq
    cases hbo2 : lookupA (updateW s env).bestObs j with
    | none =>
      unfold bestKnown at hpos
      rw [hbo2] at hpos
      simp at hpos
    | some d =>
      have hbk : bestKnown (updateW s env) j = d := by
        unfold bestKnown
        rw [hbo2]
        rfl
      rw [hbk] at hpos hge hlt
      have hrelj := hrel j
      rw [hbo2, Option.some_bind, if_pos hpos] at hrelj
      refine ⟨(lookupA_isSome_iff _ _).mp ⟨d, hrelj⟩, ?_⟩
      rw [hrelj]
      simp only [Option.map_some', Option.getD_some, decide_eq_true_eq]
      exact (floor_div100_eq_iff d k).mpr ⟨hge, hlt⟩

/-- Counterexample to C9 as stated: one creature is added and its single
body sits exactly at `x = 0` when the update runs.  Its best-known `maxX`
is 0, which lies in bucket 0's range `[0, 100)`, but the
`furthest > (get(id) || 0)` guard never records it, so bucket 0 reads 0,
not 1. -/
theorem claimC9_counterexample :
    WReach worldEx ∧
    ¬ (∀ k : ℕ, binAt worldEx.bins k = claimC9Count worldEx k) := by
  constructor
  · refine WReach.update _ _ ?_ (WReach.add _ 1 WReach.init)
    intro id hid
    simp
  · intro hclaim
    have h0 := hclaim 0
    have hbins : worldEx.bins = [] := rfl
    have hev : worldEx.everAdded = [1] := rfl
    have hbk : bestKnown worldEx 1 = 0 := rfl
    have hcount : claimC9Count worldEx 0 = 1 := by
      unfold claimC9Count
      rw [hev]
      simp [hbk]
    rw [hbins, hcount] at h0
    simp [binAt] at h0

/-- Witness for the amended C9 theorem: one creature (id 2) whose body is
at `x = 150` at update time; bucket 1 then counts it. -/
theorem claimC9_witness :
    binAt (updateW (addCreatureW WorldState.init 2) (fun _ => [150])).bins 1 =
      claimC9CountPos (updateW (addCreatureW WorldState.init 2)
        (fun _ => [150])) 1 :=
  claimC9_histogram_amended (addCreatureW WorldState.init 2)
    (WReach.add _ 2 WReach.init) (fun _ => [150]) (fun id hid => by simp) 1

/-! ## Claim C10 -/

/-- **C10**: freezing a creature sets every body static with velocity
exactly `(0, 0)` and angular velocity `0`, and `freezeCreature` is
idempotent: a second call on the result of the first leaves both the
controller's dead-set and every body unchanged. -/
theorem claimC10_freeze_idempotent (dead : List ℕ) (c : Creature) :
    (∀ b ∈ (freezeCreature dead c).2.bodies,
       b.isStatic = true ∧ b.vx = 0 ∧ b.vy = 0 ∧ b.angularVelocity = 0) ∧
    freezeCreature (freezeCreature dead c).1 (freezeCreature dead c).2 =
      freezeCreature dead c := by
  constructor
  · intro b hb
    simp only [freezeCreature, List.mem_map] at hb
    obtain ⟨b0, _, rfl⟩ := hb
    exact ⟨rfl, rfl, rfl, rfl⟩
  · have hg : ∀ b : BodyState, freezeBody (freezeBody b) = freezeBody b :=
      fun _ => rfl
    simp only [freezeCreature, List.map_map,
      List.insert_of_mem (List.mem_insert_self c.id dead),
      show freezeBody ∘ freezeBody = freezeBody from funext hg]

end SimpleCreature
